import Mathlib

/-!
Verification development for the cooperative priority scheduler
(`packages/scheduler/src/SchedulerMinHeap.js`,
`packages/scheduler/src/forks/Scheduler.js`,
`packages/scheduler/src/SchedulerFeatureFlags.js`).

The JavaScript sources are embedded shallowly: the mutable module state is
threaded explicitly, machine numbers are modelled as `Int`, the two mutable
heap arrays become `List Task` values, and host-side effects
(`requestHostCallback`, `requestHostTimeout`, `cancelHostTimeout`, and user
callback invocations) are recorded in an event log.  User callbacks are pure:
a callback receives the `didTimeout` boolean and either returns a
continuation, returns a non-callable value, or throws.
-/

namespace SchedulerSpec

/-! ## Feature flags (`SchedulerFeatureFlags.js`) -/

def enableSchedulerDebugging : Bool := false
def enableIsInputPending : Bool := false
def enableProfiling : Bool := false
def enableIsInputPendingContinuous : Bool := false
def frameYieldMs : Int := 5
def continuousYieldMs : Int := 50
def maxYieldMs : Int := 300

/-! ## Priority levels

Modelled from the spec: `SchedulerPriorities.js` is not among the sources;
the spec lists exactly five priority variants (Immediate, UserBlocking,
Normal, Low, Idle) whose concrete numeric values are internal, so five
distinct integer constants represent them. -/

def ImmediatePriority : Int := 1
def UserBlockingPriority : Int := 2
def NormalPriority : Int := 3
def LowPriority : Int := 4
def IdlePriority : Int := 5

/-! ## Timeout constants (`Scheduler.js`, lines 60-72) -/

def maxSigned31BitInt : Int := 1073741823
def IMMEDIATE_PRIORITY_TIMEOUT : Int := -1
def USER_BLOCKING_PRIORITY_TIMEOUT : Int := 250
def NORMAL_PRIORITY_TIMEOUT : Int := 5000
def LOW_PRIORITY_TIMEOUT : Int := 10000
def IDLE_PRIORITY_TIMEOUT : Int := maxSigned31BitInt

/-! ## User callbacks

A user callback takes `didTimeout : Bool` and either returns (with an
optional continuation callback of the same shape) or throws. -/

inductive CbResult (α : Type) : Type where
  | ret (continuation : Option α)
  | thr
  deriving Repr

inductive Callback : Type where
  | mk (f : Bool → CbResult Callback)

def Callback.run : Callback → Bool → CbResult Callback
  | .mk f, didTimeout => f didTimeout

/-! ## Task records (`Scheduler.js`, lines 351-358)

`isQueued` exists only when `enableProfiling` is true; the flag is `false`
in `SchedulerFeatureFlags.js`, so the field is omitted. -/

structure Task : Type where
  id : Int
  callback : Option Callback
  priorityLevel : Int
  startTime : Int
  expirationTime : Int
  sortIndex : Int

instance : Inhabited Task := ⟨⟨0, none, 0, 0, 0, 0⟩⟩

end SchedulerSpec

namespace SchedulerMinHeap

open SchedulerSpec
open scoped List

/-- List indexing with the JS-array flavour: out-of-range reads yield the
default node (such reads are guarded in the source). -/
def getT (heap : List Task) (i : Nat) : Task :=
  heap.getD i default

/-- `compare` from `SchedulerMinHeap.js` (lines 124-129): sort index first,
then task id. -/
def compare (a b : Task) : Int :=
  let diff := a.sortIndex - b.sortIndex
  if diff ≠ 0 then diff else a.id - b.id

/-- `siftUp` (lines 65-82): repeatedly swap the node with its parent while
the parent is larger. -/
def siftUp (heap : List Task) (node : Task) (i : Nat) : List Task :=
  if h : 0 < i then
    let parentIndex := (i - 1) / 2
    let parent := getT heap parentIndex
    if compare parent node > 0 then
      siftUp ((heap.set parentIndex node).set i parent) node parentIndex
    else
      heap
  else
    heap
termination_by i
decreasing_by omega

/-- `siftDown` (lines 86-121): repeatedly swap the node with its smaller
child, stopping at the last non-leaf index. -/
def siftDown (heap : List Task) (node : Task) (i : Nat) : List Task :=
  let length := heap.length
  let halfLength := length / 2
  if h : i < halfLength then
    let leftIndex := (i + 1) * 2 - 1
    let left := getT heap leftIndex
    let rightIndex := leftIndex + 1
    let right := getT heap rightIndex
    if compare left node < 0 then
      if rightIndex < length ∧ compare right left < 0 then
        siftDown ((heap.set i right).set rightIndex node) node rightIndex
      else
        siftDown ((heap.set i left).set leftIndex node) node leftIndex
    else if rightIndex < length ∧ compare right node < 0 then
      siftDown ((heap.set i right).set rightIndex node) node rightIndex
    else
      heap
  else
    heap
termination_by heap.length - i
decreasing_by
  all_goals simp only [List.length_set, leftIndex, rightIndex] at *
  all_goals omega

/-- `push` (lines 37-41): append the node, then sift it up from the old
length. -/
def push (heap : List Task) (node : Task) : List Task :=
  siftUp (heap ++ [node]) node heap.length

/-- `peek` (lines 45-47): the root, or null on an empty heap. -/
def peek (heap : List Task) : Option Task :=
  match heap with
  | [] => none
  | first :: _ => some first

/-- `pop` (lines 50-62).  The source compares `last !== first` by object
reference; the slots are distinct objects exactly when the array holds more
than one element, so the model branches on the length. -/
def pop (heap : List Task) : Option Task × List Task :=
  match heap with
  | [] => (none, [])
  | [first] => (some first, [])
  | first :: _ :: _ =>
    let last := getT heap (heap.length - 1)
    let shrunk := heap.dropLast
    (some first, siftDown (shrunk.set 0 last) last 0)

/-! ## The ordering relation induced by `compare` -/

/-- The non-strict order used by the heap: `a` is at most `b` when
`compare a b ≤ 0`. -/
def le (a b : Task) : Prop := compare a b ≤ 0

instance (a b : Task) : Decidable (le a b) := by
  unfold le; infer_instance

theorem compare_nonpos_iff (a b : Task) :
    compare a b ≤ 0 ↔
      a.sortIndex < b.sortIndex ∨ (a.sortIndex = b.sortIndex ∧ a.id ≤ b.id) := by
  simp only [compare]
  split <;> omega

theorem compare_neg_iff (a b : Task) :
    compare a b < 0 ↔
      a.sortIndex < b.sortIndex ∨ (a.sortIndex = b.sortIndex ∧ a.id < b.id) := by
  simp only [compare]
  split <;> omega

theorem compare_pos_iff (a b : Task) :
    compare a b > 0 ↔
      b.sortIndex < a.sortIndex ∨ (b.sortIndex = a.sortIndex ∧ b.id < a.id) := by
  simp only [compare]
  split <;> omega

theorem le_refl (a : Task) : le a a := by
  simp [le, compare]

theorem le_trans {a b c : Task} (h₁ : le a b) (h₂ : le b c) : le a c := by
  simp only [le, compare_nonpos_iff] at *
  omega

theorem le_of_not_compare_pos {a b : Task} (h : ¬ compare a b > 0) : le a b := by
  simp only [le]; omega

theorem le_of_compare_neg {a b : Task} (h : compare a b < 0) : le a b := by
  simp only [le]; omega

theorem le_of_not_compare_neg {a b : Task} (h : ¬ compare a b < 0) : le b a := by
  simp only [le, compare_nonpos_iff]
  simp only [compare_neg_iff] at h
  omega

theorem le_flip_of_compare_pos {a b : Task} (h : compare a b > 0) : le b a := by
  simp only [le, compare_nonpos_iff]
  simp only [compare_pos_iff] at h
  omega

theorem ne_of_compare_neg {a b : Task} (h : compare a b < 0) : a ≠ b := by
  intro hab
  subst hab
  simp [compare] at h

theorem not_le_of_compare_neg {a b : Task} (h : compare a b < 0) : ¬ le b a := by
  simp only [le, compare_nonpos_iff]
  simp only [compare_neg_iff] at h
  omega

/-- `compare` only reads the sort index and the id, so tasks sharing those
two fields compare identically against everything. -/
theorem compare_congr_left {a a' : Task} (hs : a.sortIndex = a'.sortIndex)
    (hid : a.id = a'.id) (b : Task) : compare a b = compare a' b := by
  simp [compare, hs, hid]

theorem compare_congr_right {b b' : Task} (hs : b.sortIndex = b'.sortIndex)
    (hid : b.id = b'.id) (a : Task) : compare a b = compare a b' := by
  simp [compare, hs, hid]

/-! ## Indexing helpers -/

theorem getT_eq_getElem (l : List Task) (i : Nat) (h : i < l.length) :
    getT l i = l[i] := by
  simp [getT, List.getD_eq_getElem?_getD, List.getElem?_eq_getElem, h]

theorem getT_set_self (l : List Task) (v : Task) (i : Nat) (h : i < l.length) :
    getT (l.set i v) i = v := by
  simp [getT, List.getD_eq_getElem?_getD, List.getElem?_set_self, h]

theorem getT_set_ne (l : List Task) (v : Task) {i j : Nat} (h : i ≠ j) :
    getT (l.set i v) j = getT l j := by
  simp [getT, List.getD_eq_getElem?_getD, List.getElem?_set_ne, h]

theorem getT_append_left (l l' : List Task) {i : Nat} (h : i < l.length) :
    getT (l ++ l') i = getT l i := by
  simp [getT, List.getD_eq_getElem?_getD, List.getElem?_append_left, h]

theorem getT_append_length (l : List Task) (v : Task) :
    getT (l ++ [v]) l.length = v := by
  simp [getT, List.getD_eq_getElem?_getD]

theorem getT_mem (l : List Task) (i : Nat) (h : i < l.length) : getT l i ∈ l := by
  rw [getT_eq_getElem l i h]
  exact List.getElem_mem h

theorem mem_iff_getT (l : List Task) (x : Task) :
    x ∈ l ↔ ∃ i, ∃ _ : i < l.length, getT l i = x := by
  rw [List.mem_iff_getElem]
  constructor
  · rintro ⟨i, hi, rfl⟩
    exact ⟨i, hi, getT_eq_getElem l i hi⟩
  · rintro ⟨i, hi, rfl⟩
    exact ⟨i, hi, (getT_eq_getElem l i hi).symm⟩

theorem mem_set_of_mem {l : List Task} {x : Task} (hx : x ∈ l) (i : Nat) (v : Task)
    (hne : getT l i ≠ x) : x ∈ l.set i v := by
  rw [mem_iff_getT] at hx
  obtain ⟨j, hj, rfl⟩ := hx
  have hij : i ≠ j := by rintro rfl; exact hne rfl
  rw [mem_iff_getT]
  refine ⟨j, by simpa using hj, ?_⟩
  rw [getT_set_ne _ _ hij]

theorem mem_of_mem_set {l : List Task} {x : Task} {i : Nat} {v : Task}
    (hx : x ∈ l.set i v) : x = v ∨ x ∈ l := by
  rcases List.mem_or_eq_of_mem_set hx with h | h
  · exact Or.inr h
  · exact Or.inl h

theorem getT_cons_zero (a : Task) (t : List Task) : getT (a :: t) 0 = a := rfl

theorem getT_cons_succ (a : Task) (t : List Task) (k : Nat) :
    getT (a :: t) (k + 1) = getT t k := rfl

theorem getT_dropLast (l : List Task) {j : Nat} (h : j < l.length - 1) :
    getT l.dropLast j = getT l j := by
  rw [getT_eq_getElem _ j (by simp; omega), getT_eq_getElem _ j (by omega)]
  exact List.getElem_dropLast l j _

/-! ## Permutation lemmas: the sift operations only rearrange elements -/

theorem cons_set_perm (a : Task) : ∀ (t : List Task) (k : Nat), k < t.length →
    List.Perm (getT t k :: t.set k a) (a :: t) := by
  intro t
  induction t with
  | nil => intro k hk; simp at hk
  | cons b t' ih =>
    intro k hk
    match k with
    | 0 =>
      simp only [getT_cons_zero, List.set_cons_zero]
      exact List.Perm.swap a b t'
    | Nat.succ m =>
      simp only [getT_cons_succ, List.set_cons_succ]
      have step := ih m (by simpa using hk)
      calc getT t' m :: b :: t'.set m a
          ~ b :: getT t' m :: t'.set m a := List.Perm.swap b (getT t' m) _
        _ ~ b :: a :: t' := step.cons b
        _ ~ a :: b :: t' := List.Perm.swap a b t'

theorem set_set_perm : ∀ (l : List Task) (i j : Nat), i < j → j < l.length →
    List.Perm ((l.set i (getT l j)).set j (getT l i)) l := by
  intro l
  induction l with
  | nil => intro i j _ hj; simp at hj
  | cons a t ih =>
    intro i j hij hj
    match i, j with
    | 0, Nat.succ k =>
      simp only [getT_cons_succ, getT_cons_zero, List.set_cons_zero, List.set_cons_succ]
      exact cons_set_perm a t k (by simpa using hj)
    | Nat.succ m, Nat.succ k =>
      simp only [getT_cons_succ, List.set_cons_succ]
      exact (ih m k (by omega) (by simpa using hj)).cons a

theorem siftUp_perm : ∀ (i : Nat) (heap : List Task) (node : Task),
    i < heap.length → getT heap i = node →
    List.Perm (siftUp heap node i) heap := by
  intro i
  induction i using Nat.strong_induction_on with
  | _ i ih =>
    intro heap node hi hnode
    rw [siftUp]
    dsimp only
    split
    · next hpos =>
      split
      · next hcmp =>
        have hplt : (i - 1) / 2 < i := by omega
        have hswap :
            List.Perm ((heap.set ((i - 1) / 2) node).set i (getT heap ((i - 1) / 2))) heap := by
          have := set_set_perm heap ((i - 1) / 2) i hplt hi
          rwa [hnode] at this
        have hlen :
            ((heap.set ((i - 1) / 2) node).set i (getT heap ((i - 1) / 2))).length
              = heap.length := by simp
        have hget :
            getT ((heap.set ((i - 1) / 2) node).set i (getT heap ((i - 1) / 2))) ((i - 1) / 2)
              = node := by
          rw [getT_set_ne _ _ (by omega : i ≠ (i - 1) / 2),
            getT_set_self _ _ _ (by omega)]
        exact (ih ((i - 1) / 2) hplt _ node (by rw [hlen]; omega) hget).trans hswap
      · exact List.Perm.refl heap
    · exact List.Perm.refl heap

theorem siftDown_perm : ∀ (n : Nat) (heap : List Task) (node : Task) (i : Nat),
    heap.length - i ≤ n → i < heap.length → getT heap i = node →
    List.Perm (siftDown heap node i) heap := by
  intro n
  induction n with
  | zero => intro heap node i hn hi _; omega
  | succ n ih =>
    intro heap node i hn hi hnode
    rw [siftDown]
    dsimp only
    split
    · next hhalf =>
      have hleft : (i + 1) * 2 - 1 < heap.length := by omega
      split
      · next hcmpl =>
        split
        · next hr =>
          have hri : (i + 1) * 2 - 1 + 1 < heap.length := hr.1
          have hswap :
              List.Perm ((heap.set i (getT heap ((i + 1) * 2 - 1 + 1))).set
                ((i + 1) * 2 - 1 + 1) (getT heap i)) heap :=
            set_set_perm heap i ((i + 1) * 2 - 1 + 1) (by omega) hri
          rw [hnode] at hswap
          have hget :
              getT ((heap.set i (getT heap ((i + 1) * 2 - 1 + 1))).set
                ((i + 1) * 2 - 1 + 1) node) ((i + 1) * 2 - 1 + 1) = node :=
            getT_set_self _ _ _ (by simpa using hri)
          exact (ih _ node _ (by simp; omega) (by simpa using hri) hget).trans hswap
        · next hr =>
          have hswap :
              List.Perm ((heap.set i (getT heap ((i + 1) * 2 - 1))).set
                ((i + 1) * 2 - 1) (getT heap i)) heap :=
            set_set_perm heap i ((i + 1) * 2 - 1) (by omega) hleft
          rw [hnode] at hswap
          have hget :
              getT ((heap.set i (getT heap ((i + 1) * 2 - 1))).set
                ((i + 1) * 2 - 1) node) ((i + 1) * 2 - 1) = node :=
            getT_set_self _ _ _ (by simpa using hleft)
          exact (ih _ node _ (by simp; omega) (by simpa using hleft) hget).trans hswap
      · split
        · next hr =>
          have hri : (i + 1) * 2 - 1 + 1 < heap.length := hr.1
          have hswap :
              List.Perm ((heap.set i (getT heap ((i + 1) * 2 - 1 + 1))).set
                ((i + 1) * 2 - 1 + 1) (getT heap i)) heap :=
            set_set_perm heap i ((i + 1) * 2 - 1 + 1) (by omega) hri
          rw [hnode] at hswap
          have hget :
              getT ((heap.set i (getT heap ((i + 1) * 2 - 1 + 1))).set
                ((i + 1) * 2 - 1 + 1) node) ((i + 1) * 2 - 1 + 1) = node :=
            getT_set_self _ _ _ (by simpa using hri)
          exact (ih _ node _ (by simp; omega) (by simpa using hri) hget).trans hswap
        · exact List.Perm.refl heap
    · exact List.Perm.refl heap

theorem push_perm (heap : List Task) (node : Task) :
    List.Perm (push heap node) (node :: heap) := by
  have h₁ : List.Perm (siftUp (heap ++ [node]) node heap.length) (heap ++ [node]) :=
    siftUp_perm heap.length (heap ++ [node]) node (by simp)
      (getT_append_length heap node)
  exact h₁.trans (List.perm_append_singleton node heap)

theorem getLastT_cons_perm (l : List Task) (hne : l ≠ []) :
    List.Perm (getT l (l.length - 1) :: l.dropLast) l := by
  have hlast : getT l (l.length - 1) = l.getLast hne := by
    rw [List.getLast_eq_getElem l hne, getT_eq_getElem]
  rw [hlast]
  have hsplit := List.dropLast_append_getLast hne
  conv_rhs => rw [← hsplit]
  exact (List.perm_append_singleton _ _).symm

theorem pop_perm (heap : List Task) (hne : heap ≠ []) :
    List.Perm (getT heap 0 :: (pop heap).2) heap := by
  match heap with
  | [first] => simp [pop, getT]
  | first :: second :: t =>
    simp only [pop]
    have hlen : ((first :: second :: t).dropLast).length
        = (first :: second :: t).length - 1 := by simp
    have hpos : 0 < ((first :: second :: t).dropLast).length := by simp
    have hset0 :
        getT (((first :: second :: t).dropLast).set 0
          (getT (first :: second :: t) ((first :: second :: t).length - 1))) 0
          = getT (first :: second :: t) ((first :: second :: t).length - 1) :=
      getT_set_self _ _ _ hpos
    have hsd := siftDown_perm (((first :: second :: t).dropLast).set 0
        (getT (first :: second :: t) ((first :: second :: t).length - 1))).length _ _ 0
      (by omega) (by simp) hset0
    refine (hsd.cons first).trans ?_
    have hdrop : (first :: second :: t).dropLast = first :: (second :: t).dropLast := by
      simp
    have hT0 : getT (first :: second :: t) 0 = first := by simp [getT]
    rw [hdrop, List.set_cons_zero]
    have htail :
        List.Perm (getT (first :: second :: t) ((first :: second :: t).length - 1)
          :: (second :: t).dropLast) (second :: t) := by
      have hg : getT (first :: second :: t) ((first :: second :: t).length - 1)
          = getT (second :: t) ((second :: t).length - 1) := by
        simp only [List.length_cons]
        rw [getT_eq_getElem _ _ (by simp), getT_eq_getElem _ _ (by simp)]
        simp
      rw [hg]
      exact getLastT_cons_perm (second :: t) (by simp)
    exact htail.cons first

/-! ## The binary-heap property -/

/-- A list is a binary min-heap when every non-root entry is at least its
parent under the `compare` order. -/
def IsHeap (heap : List Task) : Prop :=
  ∀ j, j < heap.length → 0 < j → le (getT heap ((j - 1) / 2)) (getT heap j)

instance (heap : List Task) : Decidable (IsHeap heap) := by
  unfold IsHeap; infer_instance

theorem isHeap_nil : IsHeap [] := by
  intro j hj
  simp at hj

theorem isHeap_root_le {heap : List Task} (h : IsHeap heap) :
    ∀ j, j < heap.length → le (getT heap 0) (getT heap j) := by
  intro j
  induction j using Nat.strong_induction_on with
  | _ j ih =>
    intro hj
    match j with
    | 0 => exact le_refl _
    | Nat.succ m =>
      have hpar := h (m + 1) hj (by omega)
      have hplt : m / 2 < m + 1 := by omega
      have := ih (m / 2) (by omega) (by omega)
      simpa using le_trans this (by simpa using hpar)

theorem isHeap_root_min {heap : List Task} (h : IsHeap heap) {x : Task}
    (hx : x ∈ heap) : le (getT heap 0) x := by
  rw [mem_iff_getT] at hx
  obtain ⟨j, hj, rfl⟩ := hx
  exact isHeap_root_le h j hj

theorem siftUp_isHeap : ∀ (i : Nat) (heap : List Task) (node : Task),
    i < heap.length → getT heap i = node →
    (∀ j, j < heap.length → 0 < j → j ≠ i →
      le (getT heap ((j - 1) / 2)) (getT heap j)) →
    (∀ j, j < heap.length → (j - 1) / 2 = i → 0 < j → 0 < i →
      le (getT heap ((i - 1) / 2)) (getT heap j)) →
    IsHeap (siftUp heap node i) := by
  intro i
  induction i using Nat.strong_induction_on with
  | _ i ih =>
    intro heap node hi hnode ha hb
    rw [siftUp]
    dsimp only
    split
    · next hpos =>
      split
      · next hcmp =>
        have hplt : (i - 1) / 2 < i := by omega
        refine ih ((i - 1) / 2) hplt _ node (by simp; omega) ?_ ?_ ?_
        · rw [getT_set_ne _ _ (by omega : i ≠ (i - 1) / 2),
            getT_set_self _ _ _ (by omega)]
        · -- all edges except the one into the new hole `(i - 1) / 2` are ordered
          intro j hj hj0 hjp
          simp only [List.length_set] at hj
          by_cases hji : j = i
          · rw [hji, getT_set_ne _ _ (by omega : i ≠ (i - 1) / 2),
              getT_set_self _ _ _ (by omega),
              getT_set_self _ _ _ (by simp; omega)]
            exact le_flip_of_compare_pos hcmp
          · by_cases hparj : (j - 1) / 2 = i
            · have hjgt : i < j := by omega
              rw [hparj, getT_set_self _ _ _ (by simp only [List.length_set]; omega),
                getT_set_ne _ _ (by omega : i ≠ j),
                getT_set_ne _ _ (by omega : (i - 1) / 2 ≠ j)]
              exact hb j hj hparj hj0 hpos
            · have hq1 : (j - 1) / 2 ≠ i := hparj
              by_cases hparp : (j - 1) / 2 = (i - 1) / 2
              · rw [hparp, getT_set_ne _ _ (by omega : i ≠ (i - 1) / 2),
                  getT_set_self _ _ _ (by omega),
                  getT_set_ne _ _ (by omega : i ≠ j),
                  getT_set_ne _ _ (fun hh => hjp hh.symm)]
                have h₁ := ha j hj hj0 hji
                rw [hparp] at h₁
                exact le_trans (le_flip_of_compare_pos hcmp) h₁
              · rw [getT_set_ne _ _ (by omega : i ≠ (j - 1) / 2),
                  getT_set_ne _ _ (fun hh => hparp hh.symm),
                  getT_set_ne _ _ (by omega : i ≠ j),
                  getT_set_ne _ _ (fun hh => hjp hh.symm)]
                exact ha j hj hj0 hji
        · -- children of the new hole sit above the hole's parent
          intro j hj hjc hj0 hppos
          simp only [List.length_set] at hj
          have hqlt : ((i - 1) / 2 - 1) / 2 < (i - 1) / 2 := by omega
          rw [getT_set_ne _ _ (by omega : i ≠ ((i - 1) / 2 - 1) / 2),
            getT_set_ne _ _ (by omega : (i - 1) / 2 ≠ ((i - 1) / 2 - 1) / 2)]
          by_cases hji : j = i
          · rw [hji, getT_set_self _ _ _ (by simp; omega)]
            exact ha ((i - 1) / 2) (by omega) hppos (by omega)
          · have hjgt : (i - 1) / 2 < j := by omega
            rw [getT_set_ne _ _ (by omega : i ≠ j),
              getT_set_ne _ _ (by omega : (i - 1) / 2 ≠ j)]
            have h₁ := ha ((i - 1) / 2) (by omega) hppos (by omega)
            have h₂ := ha j hj (by omega) hji
            rw [hjc] at h₂
            exact le_trans h₁ h₂
      · next hcmp =>
        intro j hj hj0
        by_cases hji : j = i
        · subst hji
          rw [← hnode] at hcmp
          exact le_of_not_compare_pos hcmp
        · exact ha j hj hj0 hji
    · next hpos =>
      intro j hj hj0
      exact ha j hj hj0 (by omega)

/-- After swapping the sifted node into child position `c`, the sift-down
invariant holds at `c`. -/
theorem siftDown_swap_inv (heap : List Task) (node : Task) (i c : Nat)
    (hi : i < heap.length) (hc : c < heap.length) (hnode : getT heap i = node)
    (hci : (c - 1) / 2 = i) (hcpos : 0 < c)
    (ha : ∀ j, j < heap.length → 0 < j → (j - 1) / 2 ≠ i →
      le (getT heap ((j - 1) / 2)) (getT heap j))
    (hb : ∀ j, j < heap.length → (j - 1) / 2 = i → 0 < i →
      le (getT heap ((i - 1) / 2)) (getT heap j))
    (hchild : le (getT heap c) node)
    (hsib : ∀ s, s < heap.length → 0 < s → (s - 1) / 2 = i → s ≠ c →
      le (getT heap c) (getT heap s)) :
    (∀ j, j < ((heap.set i (getT heap c)).set c node).length → 0 < j →
        (j - 1) / 2 ≠ c →
        le (getT ((heap.set i (getT heap c)).set c node) ((j - 1) / 2))
           (getT ((heap.set i (getT heap c)).set c node) j)) ∧
    (∀ j, j < ((heap.set i (getT heap c)).set c node).length →
        (j - 1) / 2 = c → 0 < c →
        le (getT ((heap.set i (getT heap c)).set c node) ((c - 1) / 2))
           (getT ((heap.set i (getT heap c)).set c node) j)) := by
  have hic : i < c := by omega
  have gi : getT ((heap.set i (getT heap c)).set c node) i = getT heap c := by
    rw [getT_set_ne _ _ (by omega : c ≠ i), getT_set_self _ _ _ hi]
  have gc : getT ((heap.set i (getT heap c)).set c node) c = node :=
    getT_set_self _ _ _ (by simpa using hc)
  have gother : ∀ j, j ≠ i → j ≠ c →
      getT ((heap.set i (getT heap c)).set c node) j = getT heap j := by
    intro j hji hjc
    rw [getT_set_ne _ _ (fun hh => hjc hh.symm), getT_set_ne _ _ (fun hh => hji hh.symm)]
  constructor
  · intro j hj hj0 hjc
    simp only [List.length_set] at hj
    by_cases hjeqc : j = c
    · subst hjeqc
      rw [hci, gi, gc]
      exact hchild
    · by_cases hjeqi : j = i
      · subst hjeqi
        have hj0' : 0 < j := hj0
        rw [gi, gother ((j - 1) / 2) (by omega) (by omega)]
        have := hb c hc hci hj0'
        exact this
      · by_cases hparc : (j - 1) / 2 = i
        · rw [hparc, gi, gother j hjeqi hjeqc]
          exact hsib j hj hj0 hparc hjeqc
        · rw [gother ((j - 1) / 2) hparc (fun hh => hjc hh),
            gother j hjeqi hjeqc]
          exact ha j hj hj0 hparc
  · intro j hj hjc hc0
    simp only [List.length_set] at hj
    have hjgt : c < j := by omega
    rw [hci, gi, gother j (by omega) (by omega)]
    have := ha j hj (by omega) (by omega)
    rwa [hjc] at this

theorem siftDown_isHeap : ∀ (n : Nat) (heap : List Task) (node : Task) (i : Nat),
    heap.length - i ≤ n → i < heap.length → getT heap i = node →
    (∀ j, j < heap.length → 0 < j → (j - 1) / 2 ≠ i →
      le (getT heap ((j - 1) / 2)) (getT heap j)) →
    (∀ j, j < heap.length → (j - 1) / 2 = i → 0 < i →
      le (getT heap ((i - 1) / 2)) (getT heap j)) →
    IsHeap (siftDown heap node i) := by
  intro n
  induction n with
  | zero => intro heap node i hn hi _ _ _; omega
  | succ n ih =>
    intro heap node i hn hi hnode ha hb
    rw [siftDown]
    dsimp only
    split
    · next hhalf =>
      have hleft : (i + 1) * 2 - 1 < heap.length := by omega
      split
      · next hcl =>
        split
        · next hr =>
          -- swap with the right child
          have hrc : (i + 1) * 2 - 1 + 1 < heap.length := hr.1
          have hinv := siftDown_swap_inv heap node i ((i + 1) * 2 - 1 + 1) hi hrc
            hnode (by omega) (by omega) ha hb
            (le_trans (le_of_compare_neg hr.2) (le_of_compare_neg hcl))
            (by
              intro s hs hs0 hsi hsne
              have hseq : s = (i + 1) * 2 - 1 := by omega
              subst hseq
              exact le_of_compare_neg hr.2)
          refine ih _ node _ ?_ ?_ ?_ hinv.1 hinv.2
          · simp only [List.length_set]; omega
          · simp only [List.length_set]; omega
          · exact getT_set_self _ _ _ (by simp only [List.length_set]; omega)
        · next hnr =>
          -- swap with the left child
          have hinv := siftDown_swap_inv heap node i ((i + 1) * 2 - 1) hi hleft
            hnode (by omega) (by omega) ha hb
            (le_of_compare_neg hcl)
            (by
              intro s hs hs0 hsi hsne
              have hseq : s = (i + 1) * 2 - 1 + 1 := by omega
              subst hseq
              have hnlt : ¬ compare (getT heap ((i + 1) * 2 - 1 + 1))
                  (getT heap ((i + 1) * 2 - 1)) < 0 := fun hlt => hnr ⟨hs, hlt⟩
              exact le_of_not_compare_neg hnlt)
          refine ih _ node _ ?_ ?_ ?_ hinv.1 hinv.2
          · simp only [List.length_set]; omega
          · simp only [List.length_set]; omega
          · exact getT_set_self _ _ _ (by simp only [List.length_set]; omega)
      · next hncl =>
        split
        · next hr =>
          -- left child is not smaller, right child is: swap with the right child
          have hrc : (i + 1) * 2 - 1 + 1 < heap.length := hr.1
          have hinv := siftDown_swap_inv heap node i ((i + 1) * 2 - 1 + 1) hi hrc
            hnode (by omega) (by omega) ha hb
            (le_of_compare_neg hr.2)
            (by
              intro s hs hs0 hsi hsne
              have hseq : s = (i + 1) * 2 - 1 := by omega
              subst hseq
              have h₁ : le (getT heap ((i + 1) * 2 - 1 + 1)) node :=
                le_of_compare_neg hr.2
              have h₂ : le node (getT heap ((i + 1) * 2 - 1)) :=
                le_of_not_compare_neg hncl
              exact le_trans h₁ h₂)
          refine ih _ node _ ?_ ?_ ?_ hinv.1 hinv.2
          · simp only [List.length_set]; omega
          · simp only [List.length_set]; omega
          · exact getT_set_self _ _ _ (by simp only [List.length_set]; omega)
        · next hnr =>
          -- neither child is smaller: the heap property already holds
          intro j hj hj0
          by_cases hpj : (j - 1) / 2 = i
          · have hjor : j = (i + 1) * 2 - 1 ∨ j = (i + 1) * 2 - 1 + 1 := by omega
            rcases hjor with hje | hje
            · subst hje
              rw [hpj, hnode]
              exact le_of_not_compare_neg hncl
            · subst hje
              rw [hpj, hnode]
              have hnlt : ¬ compare (getT heap ((i + 1) * 2 - 1 + 1)) node < 0 :=
                fun hlt => hnr ⟨hj, hlt⟩
              exact le_of_not_compare_neg hnlt
          · exact ha j hj hj0 hpj
    · next hhalf =>
      intro j hj hj0
      by_cases hpj : (j - 1) / 2 = i
      · omega
      · exact ha j hj hj0 hpj

/-! ## Correctness of the three public heap operations -/

theorem push_isHeap {heap : List Task} (h : IsHeap heap) (node : Task) :
    IsHeap (push heap node) := by
  refine siftUp_isHeap heap.length (heap ++ [node]) node (by simp)
    (getT_append_length heap node) ?_ ?_
  · intro j hj hj0 hji
    simp only [List.length_append, List.length_cons, List.length_nil] at hj
    have hjlt : j < heap.length := by omega
    rw [getT_append_left _ _ hjlt, getT_append_left _ _ (by omega)]
    exact h j hjlt hj0
  · intro j hj hjc hj0 _
    simp only [List.length_append, List.length_cons, List.length_nil] at hj
    omega

theorem push_length (heap : List Task) (node : Task) :
    (push heap node).length = heap.length + 1 := by
  simpa using (push_perm heap node).length_eq

theorem pop_isHeap {heap : List Task} (h : IsHeap heap) : IsHeap (pop heap).2 := by
  match heap with
  | [] => exact isHeap_nil
  | [a] => exact isHeap_nil
  | a :: b :: t =>
    simp only [pop]
    have hlen : ((a :: b :: t).dropLast).length = (a :: b :: t).length - 1 := by
      simp
    have hpos : 0 < ((a :: b :: t).dropLast).length := by simp
    refine siftDown_isHeap (((a :: b :: t).dropLast).set 0
        (getT (a :: b :: t) ((a :: b :: t).length - 1))).length _ _ 0 (by omega)
      (by simp) (getT_set_self _ _ _ hpos) ?_ ?_
    · intro j hj hj0 hpj
      simp only [List.length_set] at hj
      rw [getT_set_ne _ _ (fun hh => hpj hh.symm), getT_set_ne _ _ (by omega : 0 ≠ j),
        getT_dropLast _ (by omega), getT_dropLast _ (by omega)]
      exact h j (by simp at hj ⊢; omega) hj0
    · intro j hj hjc hi0
      omega

theorem pop_length (heap : List Task) :
    ((pop heap).2).length = heap.length - 1 := by
  match heap with
  | [] => simp [pop]
  | [a] => simp [pop]
  | a :: b :: t =>
    have h := (pop_perm (a :: b :: t) (by simp)).length_eq
    simp only [List.length_cons] at h ⊢
    omega

theorem peek_eq_getT {heap : List Task} (h : heap ≠ []) :
    peek heap = some (getT heap 0) := by
  match heap with
  | a :: t => rfl

theorem peek_eq_none_iff (heap : List Task) : peek heap = none ↔ heap = [] := by
  match heap with
  | [] => simp [peek]
  | a :: t => simp [peek]

theorem peek_mem {heap : List Task} {t : Task} (h : peek heap = some t) : t ∈ heap := by
  match heap with
  | [] => simp [peek] at h
  | a :: rest =>
    simp only [peek, Option.some.injEq] at h
    exact h ▸ List.mem_cons_self a rest

theorem peek_set_zero {heap : List Task} (h : heap ≠ []) (v : Task) :
    peek (heap.set 0 v) = some v := by
  match heap with
  | a :: t => rfl

end SchedulerMinHeap

namespace Scheduler

open SchedulerSpec SchedulerMinHeap
open scoped List

/-! ## Module constants of `Scheduler.js` (lines 444-446) -/

def continuousInputInterval : Int := continuousYieldMs
def maxInterval : Int := maxYieldMs

/-- `advanceTimers` (lines 110-132): while the pending head is cancelled,
pop it; while it has matured, pop it, rewrite its sort index to its
expiration time and push it into the task queue; stop at the first pending
timer.  (`enableProfiling` is false, so no `markTaskStart`/`isQueued`
bookkeeping happens.)  Returns the two updated queues. -/
def advanceTimers (currentTime : Int) (taskQueue timerQueue : List Task) :
    List Task × List Task :=
  match hpk : peek timerQueue with
  | none => (taskQueue, timerQueue)
  | some timer =>
    match timer.callback with
    | none =>
      -- Timer was cancelled.
      advanceTimers currentTime taskQueue (pop timerQueue).2
    | some _ =>
      if timer.startTime ≤ currentTime then
        -- Timer fired. Transfer to the task queue.
        advanceTimers currentTime
          (push taskQueue {timer with sortIndex := timer.expirationTime})
          (pop timerQueue).2
      else
        -- Remaining timers are pending.
        (taskQueue, timerQueue)
termination_by timerQueue.length
decreasing_by
  all_goals
    have hne : timerQueue ≠ [] := by
      intro hh
      rw [hh] at hpk
      simp [peek] at hpk
    rw [pop_length]
    cases timerQueue
    · exact absurd rfl hne
    · simp

/-- `shouldYieldToHost` (lines 452-512).  `startTime` is the module variable
holding the start of the current slice; `isInputPending` is the captured
host capability (`none` when the host does not expose it). -/
def shouldYieldToHost (currentTime startTime frameInterval : Int)
    (needsPaint : Bool) (isInputPending : Option (Bool → Bool)) : Bool :=
  let timeElapsed := currentTime - startTime
  if timeElapsed < frameInterval then
    false
  else if enableIsInputPending then
    if needsPaint then
      true
    else if timeElapsed < continuousInputInterval then
      match isInputPending with
      | some pending => pending false
      | none => true
    else if timeElapsed < maxInterval then
      match isInputPending with
      | some pending => pending enableIsInputPendingContinuous
      | none => true
    else
      true
  else
    true

/-- Host-side effects and user-callback invocations, in program order. -/
inductive Event : Type where
  | invoke (id : Int) (didTimeout : Bool)
  | timeoutRequest (delayMs : Int)
  | cancelTimeout
  | callbackRequest
  deriving DecidableEq, Repr

/-- Immutable data for one work-loop activation: the host clock (indexed by
the number of `getCurrentTime()` calls made so far inside the activation)
and the module state read by `shouldYieldToHost`. -/
structure LoopCtx : Type where
  clock : Nat → Int
  hasTimeRemaining : Bool
  startTime : Int
  frameInterval : Int
  needsPaint : Bool
  isInputPending : Option (Bool → Bool)

/-- The mutable state threaded through the work loop. -/
structure LoopState : Type where
  taskQueue : List Task
  timerQueue : List Task
  currentPriorityLevel : Int
  currentTime : Int
  clockCalls : Nat

/-- How a work-loop activation ended. -/
inductive Outcome : Type where
  | more
  | done
  | thrown
  | fuelOut
  deriving DecidableEq, Repr

/-- The `while` loop of `workLoop` (lines 197-237) followed by the exit code
(lines 239-247).  One fuel unit is one loop iteration; `fuelOut` marks the
artificial bound.  The source compares `currentTask === peek(taskQueue)` by
object reference before popping; task ids are process-unique, so the model
compares ids. -/
def workLoopGo (ctx : LoopCtx) (isSchedulerPaused : Bool) :
    Nat → LoopState → Outcome × LoopState × List Event
  | 0, s => (.fuelOut, s, [])
  | Nat.succ fuel, s =>
    match peek s.taskQueue with
    | none =>
      -- the while-condition failed with currentTask null: exit path
      match peek s.timerQueue with
      | some firstTimer =>
        (.done, s, [.timeoutRequest (firstTimer.startTime - s.currentTime)])
      | none => (.done, s, [])
    | some currentTask =>
      if enableSchedulerDebugging && isSchedulerPaused then
        -- the while-condition failed with currentTask non-null: report more work
        (.more, s, [])
      else
        -- the deadline check; `shouldYieldToHost` performs one
        -- `getCurrentTime()` call when it is consulted
        let deadline : Bool × Nat :=
          if currentTask.expirationTime > s.currentTime then
            if !ctx.hasTimeRemaining then
              (true, s.clockCalls)
            else
              (shouldYieldToHost (ctx.clock s.clockCalls) ctx.startTime
                ctx.frameInterval ctx.needsPaint ctx.isInputPending,
                s.clockCalls + 1)
          else
            (false, s.clockCalls)
        if deadline.1 then
          (.more, {s with clockCalls := deadline.2}, [])
        else
          match currentTask.callback with
          | some cb =>
            let didTimeout := decide (currentTask.expirationTime ≤ s.currentTime)
            let tq1 := s.taskQueue.set 0 {currentTask with callback := none}
            match cb.run didTimeout with
            | .thr =>
              -- the exception propagates out of the loop
              (.thrown,
                {s with taskQueue := tq1,
                        currentPriorityLevel := currentTask.priorityLevel,
                        clockCalls := deadline.2},
                [.invoke currentTask.id didTimeout])
            | .ret contOpt =>
              let newTime := ctx.clock deadline.2
              let tq2 :=
                match contOpt with
                | some continuation =>
                  tq1.set 0 {currentTask with callback := some continuation}
                | none =>
                  match peek tq1 with
                  | some head => if head.id = currentTask.id then (pop tq1).2 else tq1
                  | none => tq1
              let advanced := advanceTimers newTime tq2 s.timerQueue
              let rest := workLoopGo ctx isSchedulerPaused fuel
                {taskQueue := advanced.1, timerQueue := advanced.2,
                 currentPriorityLevel := currentTask.priorityLevel,
                 currentTime := newTime, clockCalls := deadline.2 + 1}
              (rest.1, rest.2.1, .invoke currentTask.id didTimeout :: rest.2.2)
          | none =>
            workLoopGo ctx isSchedulerPaused fuel
              {s with taskQueue := (pop s.taskQueue).2, clockCalls := deadline.2}

/-- `workLoop` (lines 193-248): advance the timers at `initialTime`, then
run the drain loop. -/
def workLoop (ctx : LoopCtx) (isSchedulerPaused : Bool) (fuel : Nat)
    (initialTime : Int) (taskQueue timerQueue : List Task)
    (currentPriorityLevel : Int) : Outcome × LoopState × List Event :=
  let advanced := advanceTimers initialTime taskQueue timerQueue
  workLoopGo ctx isSchedulerPaused fuel
    {taskQueue := advanced.1, timerQueue := advanced.2,
     currentPriorityLevel := currentPriorityLevel,
     currentTime := initialTime, clockCalls := 0}

/-- The scheduler's module-level mutable state (lines 75-92). -/
structure SchedState : Type where
  taskQueue : List Task
  timerQueue : List Task
  taskIdCounter : Int
  isSchedulerPaused : Bool
  currentPriorityLevel : Int
  isPerformingWork : Bool
  isHostCallbackScheduled : Bool
  isHostTimeoutScheduled : Bool

/-- `flushWork` (lines 151-191), production path (`enableProfiling` is
false).  The `finally` block runs on normal return and on a propagating
exception alike, so the model applies it to every outcome. -/
def flushWork (ctx : LoopCtx) (fuel : Nat) (initialTime : Int) (s : SchedState) :
    Outcome × SchedState × List Event :=
  let s1 := {s with isHostCallbackScheduled := false}
  let cancelEvs : List Event :=
    if s1.isHostTimeoutScheduled then [.cancelTimeout] else []
  let s2 :=
    if s1.isHostTimeoutScheduled then {s1 with isHostTimeoutScheduled := false} else s1
  let s3 := {s2 with isPerformingWork := true}
  let previousPriorityLevel := s3.currentPriorityLevel
  let result := workLoop ctx s3.isSchedulerPaused fuel initialTime
    s3.taskQueue s3.timerQueue s3.currentPriorityLevel
  (result.1,
   {s3 with taskQueue := result.2.1.taskQueue,
            timerQueue := result.2.1.timerQueue,
            currentPriorityLevel := previousPriorityLevel,
            isPerformingWork := false},
   cancelEvs ++ result.2.2)

/-- The priority-normalizing switch of `unstable_runWithPriority`
(lines 251-260): the five known levels pass through, anything else becomes
`NormalPriority`. -/
def normalizePriorityLevel (priorityLevel : Int) : Int :=
  if priorityLevel = ImmediatePriority ∨ priorityLevel = UserBlockingPriority ∨
      priorityLevel = NormalPriority ∨ priorityLevel = LowPriority ∨
      priorityLevel = IdlePriority then
    priorityLevel
  else
    NormalPriority

/-- `unstable_runWithPriority` (lines 250-270).  The event handler is a
state transformer over the ambient priority level that either returns a
value or throws; the `finally` restores the previous level on both exits. -/
def unstable_runWithPriority {ε α : Type} (priorityLevel : Int)
    (eventHandler : Int → Except ε α × Int) (currentPriorityLevel : Int) :
    Except ε α × Int :=
  let normalized := normalizePriorityLevel priorityLevel
  let previousPriorityLevel := currentPriorityLevel
  let handled := eventHandler normalized
  (handled.1, previousPriorityLevel)

/-- The `options` argument of `unstable_scheduleCallback`: an object whose
`delay` field is a number (`obj (some d)`), an object whose `delay` field is
missing or not a number (`obj none`), or a non-object value such as
undefined or null (`notObject`). -/
inductive ScheduleOptions : Type where
  | obj (delay : Option Int)
  | notObject
  deriving DecidableEq, Repr

/-- The `startTime` computation at the top of `unstable_scheduleCallback`
(lines 313-325): an object options value carrying a numeric `delay` greater
than 0 adds the delay to the current time; every other options value leaves
`startTime = currentTime`. -/
def schedStartTime (options : ScheduleOptions) (currentTime : Int) : Int :=
  match options with
  | .obj (some delay) => if delay > 0 then currentTime + delay else currentTime
  | .obj none => currentTime
  | .notObject => currentTime

/-- The `timeout` switch of `unstable_scheduleCallback` (lines 327-345);
the default case maps every unknown level to the Normal timeout. -/
def timeoutForPriorityLevel (priorityLevel : Int) : Int :=
  if priorityLevel = ImmediatePriority then IMMEDIATE_PRIORITY_TIMEOUT
  else if priorityLevel = UserBlockingPriority then USER_BLOCKING_PRIORITY_TIMEOUT
  else if priorityLevel = IdlePriority then IDLE_PRIORITY_TIMEOUT
  else if priorityLevel = LowPriority then LOW_PRIORITY_TIMEOUT
  else NORMAL_PRIORITY_TIMEOUT

/-- The task record constructed by `unstable_scheduleCallback`
(lines 351-358), before the branch-dependent `sortIndex` rewrite. -/
def newTaskRecord (priorityLevel : Int) (callback : Callback)
    (options : ScheduleOptions) (currentTime : Int) (counter : Int) : Task :=
  {id := counter, callback := some callback, priorityLevel := priorityLevel,
   startTime := schedStartTime options currentTime,
   expirationTime := schedStartTime options currentTime
     + timeoutForPriorityLevel priorityLevel,
   sortIndex := -1}

/-- The new task as inserted into the pending queue, after the
`newTask.sortIndex = startTime` rewrite (line 365). -/
def delayedTask (priorityLevel : Int) (callback : Callback)
    (options : ScheduleOptions) (currentTime : Int) (counter : Int) : Task :=
  {newTaskRecord priorityLevel callback options currentTime counter with
    sortIndex := schedStartTime options currentTime}

/-- The new task as inserted into the ready queue, after the
`newTask.sortIndex = expirationTime` rewrite (line 379). -/
def readyTask (priorityLevel : Int) (callback : Callback)
    (options : ScheduleOptions) (currentTime : Int) (counter : Int) : Task :=
  {newTaskRecord priorityLevel callback options currentTime counter with
    sortIndex := schedStartTime options currentTime
      + timeoutForPriorityLevel priorityLevel}

/-- `unstable_scheduleCallback` (lines 312-394).  `currentTime` is the
`getCurrentTime()` reading taken at entry. -/
def unstable_scheduleCallback (priorityLevel : Int) (callback : Callback)
    (options : ScheduleOptions) (currentTime : Int) (s : SchedState) :
    Task × SchedState × List Event :=
  let startTime := schedStartTime options currentTime
  let s1 := {s with taskIdCounter := s.taskIdCounter + 1}
  if startTime > currentTime then
    -- This is a delayed task.
    let delayed := delayedTask priorityLevel callback options currentTime s.taskIdCounter
    let timerQueue1 := push s1.timerQueue delayed
    let s2 := {s1 with timerQueue := timerQueue1}
    -- `peek(taskQueue) === null && newTask === peek(timerQueue)`;
    -- the reference comparison is rendered as an id comparison
    if (peek s2.taskQueue).isNone &&
        (match peek timerQueue1 with
         | some head => decide (head.id = delayed.id)
         | none => false) then
      ((if s2.isHostTimeoutScheduled then
          (delayed, s2, [Event.cancelTimeout, Event.timeoutRequest (startTime - currentTime)])
        else
          (delayed, {s2 with isHostTimeoutScheduled := true},
            [Event.timeoutRequest (startTime - currentTime)])))
    else
      (delayed, s2, [])
  else
    let ready := readyTask priorityLevel callback options currentTime s.taskIdCounter
    let s2 := {s1 with taskQueue := push s1.taskQueue ready}
    if !s2.isHostCallbackScheduled && !s2.isPerformingWork then
      (ready, {s2 with isHostCallbackScheduled := true}, [Event.callbackRequest])
    else
      (ready, s2, [])

/-- `unstable_pauseExecution` (lines 396-398). -/
def unstable_pauseExecution (s : SchedState) : SchedState :=
  {s with isSchedulerPaused := true}

/-- `unstable_continueExecution` (lines 400-406). -/
def unstable_continueExecution (s : SchedState) : SchedState × List Event :=
  let s1 := {s with isSchedulerPaused := false}
  if !s1.isHostCallbackScheduled && !s1.isPerformingWork then
    ({s1 with isHostCallbackScheduled := true}, [.callbackRequest])
  else
    (s1, [])

/-- The body of `unstable_cancelCallback` (lines 412-425) in the production
path: `task.callback = null`, mutating the task object in place. -/
def cancelTaskCallback (taskId : Int) (t : Task) : Task :=
  if t.id = taskId then {t with callback := none} else t

/-- `unstable_cancelCallback` lifted to the module state: the cancelled task
object lives inside (at most) one of the two heap arrays, so nulling its
callback in place nulls the callback of every queue entry carrying its id. -/
def unstable_cancelCallback (taskId : Int) (s : SchedState) : SchedState :=
  {s with taskQueue := s.taskQueue.map (cancelTaskCallback taskId),
          timerQueue := s.timerQueue.map (cancelTaskCallback taskId)}

/-- `unstable_getFirstCallbackNode` (lines 408-410). -/
def unstable_getFirstCallbackNode (s : SchedState) : Option Task :=
  peek s.taskQueue

/-- `forceFrameRate` (lines 529-545): given the current `frameInterval`,
returns the new `frameInterval` together with whether the error branch
logged to the console. -/
def forceFrameRate (fps : Int) (frameInterval : Int) : Int × Bool :=
  if fps < 0 ∨ fps > 125 then
    (frameInterval, true)
  else if fps > 0 then
    (1000 / fps, false)
  else
    (frameYieldMs, false)

end Scheduler

namespace SchedulerMinHeap

open SchedulerSpec
open scoped List

theorem pop_fst {heap : List Task} (h : heap ≠ []) :
    (pop heap).1 = some (getT heap 0) := by
  match heap with
  | [a] => rfl
  | a :: b :: t => rfl

theorem pop_nil : pop [] = (none, []) := rfl

theorem peek_nil : peek [] = none := rfl

/-- Replacing the root by a task with the same sort index and id preserves
the heap property (`compare` reads only those two fields). -/
theorem isHeap_set_sameKey {heap : List Task} (h : IsHeap heap) (v : Task)
    (hs : v.sortIndex = (getT heap 0).sortIndex) (hid : v.id = (getT heap 0).id) :
    IsHeap (heap.set 0 v) := by
  intro j hj hj0
  simp only [List.length_set] at hj
  have hjne : (0 : Nat) ≠ j := by omega
  rw [getT_set_ne _ _ hjne]
  by_cases hpar : (j - 1) / 2 = 0
  · rw [hpar, getT_set_self _ _ _ (by omega)]
    have horig := h j hj hj0
    rw [hpar] at horig
    simpa only [le, compare_congr_left hs hid] using horig
  · rw [getT_set_ne _ _ (fun hh => hpar hh.symm)]
    exact h j hj hj0

theorem mem_pop_of_mem {heap : List Task} {x : Task} (hx : x ∈ heap)
    (hne : getT heap 0 ≠ x) : x ∈ (pop heap).2 := by
  have hnil : heap ≠ [] := by rintro rfl; simp at hx
  have hperm := pop_perm heap hnil
  have := hperm.mem_iff.mpr hx
  rcases List.mem_cons.mp this with h | h
  · exact absurd h.symm hne
  · exact h

theorem mem_of_mem_pop {heap : List Task} {x : Task} (hx : x ∈ (pop heap).2) :
    x ∈ heap := by
  have hnil : heap ≠ [] := by
    rintro rfl; simp [pop] at hx
  exact (pop_perm heap hnil).mem_iff.mp (List.mem_cons_of_mem _ hx)

theorem mem_push_of_mem {heap : List Task} {x : Task} (hx : x ∈ heap) (node : Task) :
    x ∈ push heap node :=
  (push_perm heap node).mem_iff.mpr (List.mem_cons_of_mem _ hx)

theorem mem_of_mem_push {heap : List Task} {x : Task} {node : Task}
    (hx : x ∈ push heap node) : x = node ∨ x ∈ heap :=
  List.mem_cons.mp ((push_perm heap node).mem_iff.mp hx)

end SchedulerMinHeap

namespace SchedulerClaims

open SchedulerSpec SchedulerMinHeap Scheduler
open scoped List

/-- Claim C3: `push`, `peek` and `pop` implement a binary min-heap under the
strict total order given by `compare` (sort index first, then id): `compare`
realizes exactly that order; `push` preserves the heap property and adds
exactly one copy of the new task to the multiset of elements; `peek` returns
`none` on the empty heap and otherwise a minimum element of the heap, which
it does not modify; `pop` returns `none` and the empty heap on the empty
heap, and otherwise removes exactly the returned minimum and preserves the
heap property on the remaining elements. -/
theorem c3_minheap_push_peek_pop :
    (∀ a b : Task, compare a b < 0 ↔
      (a.sortIndex < b.sortIndex ∨ (a.sortIndex = b.sortIndex ∧ a.id < b.id))) ∧
    (∀ (heap : List Task) (t : Task), IsHeap heap →
      IsHeap (push heap t) ∧ List.Perm (push heap t) (t :: heap)) ∧
    (peek ([] : List Task) = none ∧
      ∀ (heap : List Task), IsHeap heap → ∀ x, peek heap = some x →
        x ∈ heap ∧ ∀ y ∈ heap, le x y) ∧
    (pop ([] : List Task) = (none, []) ∧
      ∀ (heap : List Task), IsHeap heap → ∀ x, peek heap = some x →
        (pop heap).1 = some x ∧ IsHeap (pop heap).2 ∧
          List.Perm heap (x :: (pop heap).2)) := by
  refine ⟨compare_neg_iff, ?_, ⟨peek_nil, ?_⟩, ⟨pop_nil, ?_⟩⟩
  · intro heap t h
    exact ⟨push_isHeap h t, push_perm heap t⟩
  · intro heap h x hx
    have hnil : heap ≠ [] := by rintro rfl; simp [peek] at hx
    have hx0 : x = getT heap 0 := by
      rw [peek_eq_getT hnil] at hx
      exact (Option.some_inj.mp hx).symm
    subst hx0
    exact ⟨peek_mem hx, fun y hy => isHeap_root_min h hy⟩
  · intro heap h x hx
    have hnil : heap ≠ [] := by rintro rfl; simp [peek] at hx
    have hx0 : x = getT heap 0 := by
      rw [peek_eq_getT hnil] at hx
      exact (Option.some_inj.mp hx).symm
    subst hx0
    exact ⟨pop_fst hnil, pop_isHeap h, (pop_perm heap hnil).symm⟩

/-- Claim C7: for every submitted task, `expirationTime` equals `startTime`
plus the timeout determined by the priority level: -1 for Immediate, 250 for
UserBlocking, 5000 for Normal, 10000 for Low, and 1073741823 for Idle; any
priority value outside these five levels is treated as Normal (timeout
5000). -/
theorem c7_expiration_is_start_plus_timeout
    (priorityLevel : Int) (callback : Callback) (options : ScheduleOptions)
    (currentTime : Int) (s : SchedState) :
    ((unstable_scheduleCallback priorityLevel callback options currentTime s).1).expirationTime
      = ((unstable_scheduleCallback priorityLevel callback options currentTime s).1).startTime
        + (if priorityLevel = ImmediatePriority then -1
           else if priorityLevel = UserBlockingPriority then 250
           else if priorityLevel = NormalPriority then 5000
           else if priorityLevel = LowPriority then 10000
           else if priorityLevel = IdlePriority then 1073741823
           else 5000) := by
  simp only [unstable_scheduleCallback, delayedTask, readyTask, newTaskRecord,
    timeoutForPriorityLevel,
    apply_ite (fun r : Task × SchedState × List Event => r.1.expirationTime),
    apply_ite (fun r : Task × SchedState × List Event => r.1.startTime),
    IMMEDIATE_PRIORITY_TIMEOUT, USER_BLOCKING_PRIORITY_TIMEOUT, NORMAL_PRIORITY_TIMEOUT,
    LOW_PRIORITY_TIMEOUT, IDLE_PRIORITY_TIMEOUT, maxSigned31BitInt,
    ImmediatePriority, UserBlockingPriority, NormalPriority, LowPriority, IdlePriority]
  split_ifs <;> omega

/-- Claim C9: `forceFrameRate` with fps below 0 or above 125 logs an error
and leaves the frame interval unchanged; with fps in range and positive it
sets the interval to floor(1000 / fps); with fps = 0 it resets the interval
to the 5 ms default. -/
theorem c9_forceFrameRate (fps frameInterval : Int) :
    ((fps < 0 ∨ fps > 125) → forceFrameRate fps frameInterval = (frameInterval, true)) ∧
    (0 < fps → fps ≤ 125 → forceFrameRate fps frameInterval = (1000 / fps, false)) ∧
    (fps = 0 → forceFrameRate fps frameInterval = (5, false)) := by
  refine ⟨?_, ?_, ?_⟩
  · intro h
    simp only [forceFrameRate]
    rw [if_pos h]
  · intro h1 h2
    simp only [forceFrameRate]
    rw [if_neg (by omega), if_pos h1]
  · intro h
    subst h
    simp [forceFrameRate, frameYieldMs]

/-- Claim C9 witness: the three hypotheses hold at fps = 126, 60 and 0
respectively, and the theorem computes the three outcomes. -/
theorem c9_forceFrameRate_witness :
    forceFrameRate 126 5 = (5, true) ∧
    forceFrameRate 60 5 = (16, false) ∧
    forceFrameRate 0 7 = (5, false) := by
  refine ⟨?_, ?_, ?_⟩
  · exact (c9_forceFrameRate 126 5).1 (by omega)
  · have h := (c9_forceFrameRate 60 5).2.1 (by omega) (by omega)
    rw [h]
    norm_num
  · exact (c9_forceFrameRate 0 7).2.2 rfl

/-- The pause latch is read by the work loop only under
`enableSchedulerDebugging`, which this build fixes to `false`, so the value
of the latch never changes what the loop computes. -/
theorem workLoopGo_paused_irrel (ctx : LoopCtx) (p : Bool) :
    ∀ fuel s, workLoopGo ctx p fuel s = workLoopGo ctx false fuel s := by
  intro fuel
  induction fuel with
  | zero => intro s; rfl
  | succ n ih =>
    intro s
    simp only [workLoopGo, enableSchedulerDebugging, Bool.false_and, ih]

/-- Claim C10: in this build the pause latch is inert: since
`enableSchedulerDebugging` is the constant false, the work loop computes
exactly the same outcome, final state and events whatever the value of
`isSchedulerPaused`, and `unstable_pauseExecution` does nothing beyond
setting the flag. -/
theorem c10_pause_latch_inert :
    enableSchedulerDebugging = false ∧
    (∀ (ctx : LoopCtx) (p₁ p₂ : Bool) (fuel : Nat) (s : LoopState),
      workLoopGo ctx p₁ fuel s = workLoopGo ctx p₂ fuel s) ∧
    (∀ (ctx : LoopCtx) (p₁ p₂ : Bool) (fuel : Nat) (initialTime : Int)
        (taskQueue timerQueue : List Task) (cpl : Int),
      workLoop ctx p₁ fuel initialTime taskQueue timerQueue cpl =
        workLoop ctx p₂ fuel initialTime taskQueue timerQueue cpl) ∧
    (∀ s : SchedState, unstable_pauseExecution s = {s with isSchedulerPaused := true}) := by
  refine ⟨rfl, ?_, ?_, fun s => rfl⟩
  · intro ctx p₁ p₂ fuel s
    rw [workLoopGo_paused_irrel ctx p₁, workLoopGo_paused_irrel ctx p₂]
  · intro ctx p₁ p₂ fuel initialTime taskQueue timerQueue cpl
    simp only [workLoop]
    rw [workLoopGo_paused_irrel ctx p₁, workLoopGo_paused_irrel ctx p₂]

/-- Claim C8: `unstable_runWithPriority` runs the handler at the normalized
priority level (the five known levels pass through, anything else becomes
Normal), returns the handler's result — also when the handler throws — and
restores the ambient priority to its entry value on every exit path; the
work-loop entry point `flushWork` restores the captured ambient priority
and clears `isPerformingWork` in its `finally` block on every outcome,
including a propagating user exception. -/
theorem c8_ambient_priority_restored :
    (∀ (ε α : Type) (priorityLevel : Int) (eventHandler : Int → Except ε α × Int)
        (current : Int),
      (unstable_runWithPriority priorityLevel eventHandler current).2 = current ∧
      (unstable_runWithPriority priorityLevel eventHandler current).1 =
        (eventHandler (normalizePriorityLevel priorityLevel)).1) ∧
    (∀ p : Int, p ≠ ImmediatePriority → p ≠ UserBlockingPriority →
      p ≠ NormalPriority → p ≠ LowPriority → p ≠ IdlePriority →
      normalizePriorityLevel p = NormalPriority) ∧
    (∀ p : Int, (p = ImmediatePriority ∨ p = UserBlockingPriority ∨
        p = NormalPriority ∨ p = LowPriority ∨ p = IdlePriority) →
      normalizePriorityLevel p = p) ∧
    (∀ (ctx : LoopCtx) (fuel : Nat) (initialTime : Int) (s : SchedState),
      ((flushWork ctx fuel initialTime s).2.1).currentPriorityLevel =
          s.currentPriorityLevel ∧
      ((flushWork ctx fuel initialTime s).2.1).isPerformingWork = false) := by
  refine ⟨?_, ?_, ?_, ?_⟩
  · intro ε α priorityLevel eventHandler current
    exact ⟨rfl, rfl⟩
  · intro p h1 h2 h3 h4 h5
    simp only [normalizePriorityLevel]
    rw [if_neg (by tauto)]
  · intro p h
    simp only [normalizePriorityLevel]
    rw [if_pos h]
  · intro ctx fuel initialTime s
    refine ⟨?_, ?_⟩ <;> simp [flushWork, apply_ite SchedState.currentPriorityLevel]

/-- Claim C6: `unstable_scheduleCallback` computes `startTime = now + delay`
exactly when the options object carries a numeric `delay` greater than 0 and
`startTime = now` for every other options value; a task with
`startTime > now` goes into the pending queue with `sortIndex = startTime`,
and when the ready queue is empty and the new task became the pending head
the call cancels any existing host timeout and requests one for
`startTime - now`; a task with `startTime <= now` goes into the ready queue
with `sortIndex = expirationTime` and requests a host callback unless one is
already scheduled or the work loop is currently running; in all cases the
new task record is returned. -/
theorem c6_scheduleCallback (priorityLevel : Int) (callback : Callback)
    (options : ScheduleOptions) (currentTime : Int) (s : SchedState)
    (t : Task) (s' : SchedState) (evs : List Event)
    (hfresh : ∀ u ∈ s.timerQueue, u.id ≠ s.taskIdCounter)
    (hr : unstable_scheduleCallback priorityLevel callback options currentTime s
      = (t, s', evs)) :
    ((∀ d, options = ScheduleOptions.obj (some d) → 0 < d →
        t.startTime = currentTime + d) ∧
     (∀ d, options = ScheduleOptions.obj (some d) → d ≤ 0 →
        t.startTime = currentTime) ∧
     (options = ScheduleOptions.obj none → t.startTime = currentTime) ∧
     (options = ScheduleOptions.notObject → t.startTime = currentTime)) ∧
    (t.id = s.taskIdCounter ∧ t.callback = some callback ∧
     t.priorityLevel = priorityLevel ∧
     s'.taskIdCounter = s.taskIdCounter + 1) ∧
    (t.startTime > currentTime →
      t.sortIndex = t.startTime ∧
      s'.timerQueue = push s.timerQueue t ∧
      s'.taskQueue = s.taskQueue ∧
      (peek s.taskQueue = none ∧ peek (push s.timerQueue t) = some t →
        evs = (if s.isHostTimeoutScheduled then [Event.cancelTimeout] else [])
            ++ [Event.timeoutRequest (t.startTime - currentTime)] ∧
        s'.isHostTimeoutScheduled = true) ∧
      (¬(peek s.taskQueue = none ∧ peek (push s.timerQueue t) = some t) →
        evs = [] ∧ s'.isHostTimeoutScheduled = s.isHostTimeoutScheduled)) ∧
    (t.startTime ≤ currentTime →
      t.sortIndex = t.expirationTime ∧
      s'.taskQueue = push s.taskQueue t ∧
      s'.timerQueue = s.timerQueue ∧
      (¬s.isHostCallbackScheduled ∧ ¬s.isPerformingWork →
        evs = [Event.callbackRequest] ∧ s'.isHostCallbackScheduled = true) ∧
      ((s.isHostCallbackScheduled ∨ s.isPerformingWork) →
        evs = [] ∧ s'.isHostCallbackScheduled = s.isHostCallbackScheduled)) := by
  have hstartD : (delayedTask priorityLevel callback options currentTime
      s.taskIdCounter).startTime = schedStartTime options currentTime := rfl
  have hstartR : (readyTask priorityLevel callback options currentTime
      s.taskIdCounter).startTime = schedStartTime options currentTime := rfl
  have hstartSpec :
      (∀ d, options = ScheduleOptions.obj (some d) → 0 < d →
        schedStartTime options currentTime = currentTime + d) ∧
      (∀ d, options = ScheduleOptions.obj (some d) → d ≤ 0 →
        schedStartTime options currentTime = currentTime) ∧
      (options = ScheduleOptions.obj none →
        schedStartTime options currentTime = currentTime) ∧
      (options = ScheduleOptions.notObject →
        schedStartTime options currentTime = currentTime) := by
    refine ⟨?_, ?_, ?_, ?_⟩
    · rintro d rfl hd
      simp only [schedStartTime]
      rw [if_pos hd]
    · rintro d rfl hd
      simp only [schedStartTime]
      rw [if_neg (by omega)]
    · rintro rfl; rfl
    · rintro rfl; rfl
  simp only [unstable_scheduleCallback] at hr
  split at hr
  · -- delayed branch
    next hdel =>
    split at hr
    · -- branch where the new task became the pending head
      next hhead =>
      rw [Bool.and_eq_true] at hhead
      obtain ⟨hnone, hmatch⟩ := hhead
      rw [Option.isNone_iff_eq_none] at hnone
      -- identify the pending head with the new task
      have hpeekpush : peek (push s.timerQueue
          (delayedTask priorityLevel callback options currentTime s.taskIdCounter))
          = some (delayedTask priorityLevel callback options currentTime s.taskIdCounter) := by
        revert hmatch
        cases hpk : peek (push s.timerQueue
            (delayedTask priorityLevel callback options currentTime s.taskIdCounter)) with
        | none => intro hmatch; simp at hmatch
        | some head =>
          intro hmatch
          have hid : head.id = s.taskIdCounter := of_decide_eq_true hmatch
          rcases mem_of_mem_push (peek_mem hpk) with hcase | hcase
          · rw [hcase]
          · exact absurd hid (hfresh head hcase)
      split at hr
      · -- a host timeout was already scheduled: cancel + re-request
        next hsched =>
        injection hr with h1 hrest
        injection hrest with h2 h3
        subst h1; subst h2; subst h3
        refine ⟨hstartSpec, ⟨rfl, rfl, rfl, rfl⟩, ?_, ?_⟩
        · intro hgt
          refine ⟨rfl, rfl, rfl, ?_, ?_⟩
          · intro hcond
            rw [if_pos hsched]
            exact ⟨rfl, hsched⟩
          · intro hcond
            exact absurd ⟨hnone, hpeekpush⟩ hcond
        · intro hle
          exact absurd hdel (by rw [hstartD] at hle; omega)
      · next hsched =>
        injection hr with h1 hrest
        injection hrest with h2 h3
        subst h1; subst h2; subst h3
        refine ⟨hstartSpec, ⟨rfl, rfl, rfl, rfl⟩, ?_, ?_⟩
        · intro hgt
          refine ⟨rfl, rfl, rfl, ?_, ?_⟩
          · intro hcond
            rw [if_neg hsched]
            exact ⟨rfl, rfl⟩
          · intro hcond
            exact absurd ⟨hnone, hpeekpush⟩ hcond
        · intro hle
          exact absurd hdel (by rw [hstartD] at hle; omega)
    · -- branch where the new task is not the pending head (or tasks are ready)
      next hhead =>
      injection hr with h1 hrest
      injection hrest with h2 h3
      subst h1; subst h2; subst h3
      refine ⟨hstartSpec, ⟨rfl, rfl, rfl, rfl⟩, ?_, ?_⟩
      · intro hgt
        refine ⟨rfl, rfl, rfl, ?_, ?_⟩
        · intro hcond
          exfalso
          apply hhead
          rw [Bool.and_eq_true, Option.isNone_iff_eq_none]
          refine ⟨hcond.1, ?_⟩
          rw [hcond.2]
          simp
        · intro hcond
          exact ⟨rfl, rfl⟩
      · intro hle
        exact absurd hdel (by rw [hstartD] at hle; omega)
  · -- immediate branch
    next hdel =>
    have hle : schedStartTime options currentTime ≤ currentTime := by omega
    split at hr
    · next hflags =>
      rw [Bool.and_eq_true, Bool.not_eq_eq_eq_not, Bool.not_eq_eq_eq_not] at hflags
      injection hr with h1 hrest
      injection hrest with h2 h3
      subst h1; subst h2; subst h3
      refine ⟨hstartSpec, ⟨rfl, rfl, rfl, rfl⟩, ?_, ?_⟩
      · intro hgt
        rw [hstartR] at hgt
        omega
      · intro _
        refine ⟨rfl, rfl, rfl, ?_, ?_⟩
        · intro _
          exact ⟨rfl, rfl⟩
        · intro hor
          exfalso
          rcases hor with h | h
          · rw [hflags.1] at h; exact absurd h (by simp)
          · rw [hflags.2] at h; exact absurd h (by simp)
    · next hflags =>
      injection hr with h1 hrest
      injection hrest with h2 h3
      subst h1; subst h2; subst h3
      refine ⟨hstartSpec, ⟨rfl, rfl, rfl, rfl⟩, ?_, ?_⟩
      · intro hgt
        rw [hstartR] at hgt
        omega
      · intro _
        refine ⟨rfl, rfl, rfl, ?_, ?_⟩
        · intro hcond
          exfalso
          apply hflags
          rw [Bool.and_eq_true, Bool.not_eq_eq_eq_not, Bool.not_eq_eq_eq_not]
          constructor
          · cases hb : s.isHostCallbackScheduled
            · rfl
            · exact absurd hb hcond.1
          · cases hb : s.isPerformingWork
            · rfl
            · exact absurd hb hcond.2
        · intro _
          exact ⟨rfl, rfl⟩



/-- Claim C6 witness: scheduling a Normal-priority task with delay 100 at
time 0 on the idle initial state discharges the freshness hypothesis and the
result equation at a concrete input. -/
theorem c6_scheduleCallback_witness :
    ((∀ d, ScheduleOptions.obj (some 100) = ScheduleOptions.obj (some d) → 0 < d →
        ((unstable_scheduleCallback 3 (Callback.mk (fun _ => CbResult.ret none))
          (ScheduleOptions.obj (some 100)) 0
          ⟨[], [], 1, false, 3, false, false, false⟩).1).startTime = 0 + d) ∧
     (∀ d, ScheduleOptions.obj (some 100) = ScheduleOptions.obj (some d) → d ≤ 0 →
        ((unstable_scheduleCallback 3 (Callback.mk (fun _ => CbResult.ret none))
          (ScheduleOptions.obj (some 100)) 0
          ⟨[], [], 1, false, 3, false, false, false⟩).1).startTime = 0) ∧
     (ScheduleOptions.obj (some 100) = ScheduleOptions.obj none →
        ((unstable_scheduleCallback 3 (Callback.mk (fun _ => CbResult.ret none))
          (ScheduleOptions.obj (some 100)) 0
          ⟨[], [], 1, false, 3, false, false, false⟩).1).startTime = 0) ∧
     (ScheduleOptions.obj (some 100) = ScheduleOptions.notObject →
        ((unstable_scheduleCallback 3 (Callback.mk (fun _ => CbResult.ret none))
          (ScheduleOptions.obj (some 100)) 0
          ⟨[], [], 1, false, 3, false, false, false⟩).1).startTime = 0)) ∧
    (((unstable_scheduleCallback 3 (Callback.mk (fun _ => CbResult.ret none))
        (ScheduleOptions.obj (some 100)) 0
        ⟨[], [], 1, false, 3, false, false, false⟩).1).id = 1 ∧
     ((unstable_scheduleCallback 3 (Callback.mk (fun _ => CbResult.ret none))
        (ScheduleOptions.obj (some 100)) 0
        ⟨[], [], 1, false, 3, false, false, false⟩).1).callback =
          some (Callback.mk (fun _ => CbResult.ret none)) ∧
     ((unstable_scheduleCallback 3 (Callback.mk (fun _ => CbResult.ret none))
        (ScheduleOptions.obj (some 100)) 0
        ⟨[], [], 1, false, 3, false, false, false⟩).1).priorityLevel = 3 ∧
     ((unstable_scheduleCallback 3 (Callback.mk (fun _ => CbResult.ret none))
        (ScheduleOptions.obj (some 100)) 0
        ⟨[], [], 1, false, 3, false, false, false⟩).2.1).taskIdCounter = 1 + 1) ∧
    (((unstable_scheduleCallback 3 (Callback.mk (fun _ => CbResult.ret none))
        (ScheduleOptions.obj (some 100)) 0
        ⟨[], [], 1, false, 3, false, false, false⟩).1).startTime > 0 →
      ((unstable_scheduleCallback 3 (Callback.mk (fun _ => CbResult.ret none))
        (ScheduleOptions.obj (some 100)) 0
        ⟨[], [], 1, false, 3, false, false, false⟩).1).sortIndex =
        ((unstable_scheduleCallback 3 (Callback.mk (fun _ => CbResult.ret none))
        (ScheduleOptions.obj (some 100)) 0
        ⟨[], [], 1, false, 3, false, false, false⟩).1).startTime ∧
      ((unstable_scheduleCallback 3 (Callback.mk (fun _ => CbResult.ret none))
        (ScheduleOptions.obj (some 100)) 0
        ⟨[], [], 1, false, 3, false, false, false⟩).2.1).timerQueue =
        push []
          ((unstable_scheduleCallback 3 (Callback.mk (fun _ => CbResult.ret none))
            (ScheduleOptions.obj (some 100)) 0
            ⟨[], [], 1, false, 3, false, false, false⟩).1) ∧
      ((unstable_scheduleCallback 3 (Callback.mk (fun _ => CbResult.ret none))
        (ScheduleOptions.obj (some 100)) 0
        ⟨[], [], 1, false, 3, false, false, false⟩).2.1).taskQueue = [] ∧
      (peek [] = none ∧
        peek (push []
          ((unstable_scheduleCallback 3 (Callback.mk (fun _ => CbResult.ret none))
            (ScheduleOptions.obj (some 100)) 0
            ⟨[], [], 1, false, 3, false, false, false⟩).1)) = some
          ((unstable_scheduleCallback 3 (Callback.mk (fun _ => CbResult.ret none))
            (ScheduleOptions.obj (some 100)) 0
            ⟨[], [], 1, false, 3, false, false, false⟩).1) →
        (unstable_scheduleCallback 3 (Callback.mk (fun _ => CbResult.ret none))
          (ScheduleOptions.obj (some 100)) 0
          ⟨[], [], 1, false, 3, false, false, false⟩).2.2 =
          (if false then [Event.cancelTimeout] else [])
            ++ [Event.timeoutRequest
              (((unstable_scheduleCallback 3 (Callback.mk (fun _ => CbResult.ret none))
                (ScheduleOptions.obj (some 100)) 0
                ⟨[], [], 1, false, 3, false, false, false⟩).1).startTime - 0)] ∧
        ((unstable_scheduleCallback 3 (Callback.mk (fun _ => CbResult.ret none))
          (ScheduleOptions.obj (some 100)) 0
          ⟨[], [], 1, false, 3, false, false, false⟩).2.1).isHostTimeoutScheduled = true) ∧
      (¬(peek [] = none ∧
        peek (push []
          ((unstable_scheduleCallback 3 (Callback.mk (fun _ => CbResult.ret none))
            (ScheduleOptions.obj (some 100)) 0
            ⟨[], [], 1, false, 3, false, false, false⟩).1)) = some
          ((unstable_scheduleCallback 3 (Callback.mk (fun _ => CbResult.ret none))
            (ScheduleOptions.obj (some 100)) 0
            ⟨[], [], 1, false, 3, false, false, false⟩).1)) →
        (unstable_scheduleCallback 3 (Callback.mk (fun _ => CbResult.ret none))
          (ScheduleOptions.obj (some 100)) 0
          ⟨[], [], 1, false, 3, false, false, false⟩).2.2 = [] ∧
        ((unstable_scheduleCallback 3 (Callback.mk (fun _ => CbResult.ret none))
          (ScheduleOptions.obj (some 100)) 0
          ⟨[], [], 1, false, 3, false, false, false⟩).2.1).isHostTimeoutScheduled = false)) ∧
    (((unstable_scheduleCallback 3 (Callback.mk (fun _ => CbResult.ret none))
        (ScheduleOptions.obj (some 100)) 0
        ⟨[], [], 1, false, 3, false, false, false⟩).1).startTime ≤ 0 →
      ((unstable_scheduleCallback 3 (Callback.mk (fun _ => CbResult.ret none))
        (ScheduleOptions.obj (some 100)) 0
        ⟨[], [], 1, false, 3, false, false, false⟩).1).sortIndex =
        ((unstable_scheduleCallback 3 (Callback.mk (fun _ => CbResult.ret none))
        (ScheduleOptions.obj (some 100)) 0
        ⟨[], [], 1, false, 3, false, false, false⟩).1).expirationTime ∧
      ((unstable_scheduleCallback 3 (Callback.mk (fun _ => CbResult.ret none))
        (ScheduleOptions.obj (some 100)) 0
        ⟨[], [], 1, false, 3, false, false, false⟩).2.1).taskQueue =
        push []
          ((unstable_scheduleCallback 3 (Callback.mk (fun _ => CbResult.ret none))
            (ScheduleOptions.obj (some 100)) 0
            ⟨[], [], 1, false, 3, false, false, false⟩).1) ∧
      ((unstable_scheduleCallback 3 (Callback.mk (fun _ => CbResult.ret none))
        (ScheduleOptions.obj (some 100)) 0
        ⟨[], [], 1, false, 3, false, false, false⟩).2.1).timerQueue = [] ∧
      (¬false ∧ ¬false →
        (unstable_scheduleCallback 3 (Callback.mk (fun _ => CbResult.ret none))
          (ScheduleOptions.obj (some 100)) 0
          ⟨[], [], 1, false, 3, false, false, false⟩).2.2 = [Event.callbackRequest] ∧
        ((unstable_scheduleCallback 3 (Callback.mk (fun _ => CbResult.ret none))
          (ScheduleOptions.obj (some 100)) 0
          ⟨[], [], 1, false, 3, false, false, false⟩).2.1).isHostCallbackScheduled = true) ∧
      ((false = true ∨ false = true) →
        (unstable_scheduleCallback 3 (Callback.mk (fun _ => CbResult.ret none))
          (ScheduleOptions.obj (some 100)) 0
          ⟨[], [], 1, false, 3, false, false, false⟩).2.2 = [] ∧
        ((unstable_scheduleCallback 3 (Callback.mk (fun _ => CbResult.ret none))
          (ScheduleOptions.obj (some 100)) 0
          ⟨[], [], 1, false, 3, false, false, false⟩).2.1).isHostCallbackScheduled = false)) :=
  c6_scheduleCallback 3 (Callback.mk (fun _ => CbResult.ret none))
    (ScheduleOptions.obj (some 100)) 0 ⟨[], [], 1, false, 3, false, false, false⟩
    _ _ _ (by simp) rfl

/-- Claim C5: when the work loop dispatches the head task it first nulls the
task's callback slot and invokes the saved callback with the single boolean
argument `didTimeout = (expirationTime <= now)`; when the callback returns a
function, that value is stored back as the task's callback and the task is
not popped (it remains at the head of the ready queue); for any non-function
return value the task is popped — the head guard holds because the nulled
task is still the head — and a throwing callback propagates with the slot
already nulled. -/
theorem c5_dispatch_step (ctx : LoopCtx) (paused : Bool) (fuel : Nat)
    (s : LoopState) (t : Task) (cb : Callback)
    (hpk : peek s.taskQueue = some t)
    (hcb : t.callback = some cb)
    (hnb : t.expirationTime ≤ s.currentTime ∨
      (ctx.hasTimeRemaining = true ∧
        shouldYieldToHost (ctx.clock s.clockCalls) ctx.startTime
          ctx.frameInterval ctx.needsPaint ctx.isInputPending = false)) :
    (cb.run (decide (t.expirationTime ≤ s.currentTime)) = CbResult.thr →
      workLoopGo ctx paused (fuel + 1) s =
        (Outcome.thrown,
         {s with taskQueue := s.taskQueue.set 0 {t with callback := none},
                 currentPriorityLevel := t.priorityLevel,
                 clockCalls := if t.expirationTime > s.currentTime
                   then s.clockCalls + 1 else s.clockCalls},
         [Event.invoke t.id (decide (t.expirationTime ≤ s.currentTime))])) ∧
    (∀ c, cb.run (decide (t.expirationTime ≤ s.currentTime)) =
        CbResult.ret (some c) →
      peek ((s.taskQueue.set 0 {t with callback := none}).set 0
          {t with callback := some c}) = some {t with callback := some c} ∧
      workLoopGo ctx paused (fuel + 1) s =
        ((workLoopGo ctx paused fuel
          {taskQueue := (advanceTimers
              (ctx.clock (if t.expirationTime > s.currentTime
                then s.clockCalls + 1 else s.clockCalls))
              ((s.taskQueue.set 0 {t with callback := none}).set 0
                {t with callback := some c}) s.timerQueue).1,
           timerQueue := (advanceTimers
              (ctx.clock (if t.expirationTime > s.currentTime
                then s.clockCalls + 1 else s.clockCalls))
              ((s.taskQueue.set 0 {t with callback := none}).set 0
                {t with callback := some c}) s.timerQueue).2,
           currentPriorityLevel := t.priorityLevel,
           currentTime := ctx.clock (if t.expirationTime > s.currentTime
             then s.clockCalls + 1 else s.clockCalls),
           clockCalls := (if t.expirationTime > s.currentTime
             then s.clockCalls + 1 else s.clockCalls) + 1}).1,
         (workLoopGo ctx paused fuel
          {taskQueue := (advanceTimers
              (ctx.clock (if t.expirationTime > s.currentTime
                then s.clockCalls + 1 else s.clockCalls))
              ((s.taskQueue.set 0 {t with callback := none}).set 0
                {t with callback := some c}) s.timerQueue).1,
           timerQueue := (advanceTimers
              (ctx.clock (if t.expirationTime > s.currentTime
                then s.clockCalls + 1 else s.clockCalls))
              ((s.taskQueue.set 0 {t with callback := none}).set 0
                {t with callback := some c}) s.timerQueue).2,
           currentPriorityLevel := t.priorityLevel,
           currentTime := ctx.clock (if t.expirationTime > s.currentTime
             then s.clockCalls + 1 else s.clockCalls),
           clockCalls := (if t.expirationTime > s.currentTime
             then s.clockCalls + 1 else s.clockCalls) + 1}).2.1,
         Event.invoke t.id (decide (t.expirationTime ≤ s.currentTime)) ::
           (workLoopGo ctx paused fuel
            {taskQueue := (advanceTimers
                (ctx.clock (if t.expirationTime > s.currentTime
                  then s.clockCalls + 1 else s.clockCalls))
                ((s.taskQueue.set 0 {t with callback := none}).set 0
                  {t with callback := some c}) s.timerQueue).1,
             timerQueue := (advanceTimers
                (ctx.clock (if t.expirationTime > s.currentTime
                  then s.clockCalls + 1 else s.clockCalls))
                ((s.taskQueue.set 0 {t with callback := none}).set 0
                  {t with callback := some c}) s.timerQueue).2,
             currentPriorityLevel := t.priorityLevel,
             currentTime := ctx.clock (if t.expirationTime > s.currentTime
               then s.clockCalls + 1 else s.clockCalls),
             clockCalls := (if t.expirationTime > s.currentTime
               then s.clockCalls + 1 else s.clockCalls) + 1}).2.2)) ∧
    (cb.run (decide (t.expirationTime ≤ s.currentTime)) = CbResult.ret none →
      peek (s.taskQueue.set 0 {t with callback := none}) =
        some {t with callback := none} ∧
      workLoopGo ctx paused (fuel + 1) s =
        ((workLoopGo ctx paused fuel
          {taskQueue := (advanceTimers
              (ctx.clock (if t.expirationTime > s.currentTime
                then s.clockCalls + 1 else s.clockCalls))
              ((pop (s.taskQueue.set 0 {t with callback := none})).2)
              s.timerQueue).1,
           timerQueue := (advanceTimers
              (ctx.clock (if t.expirationTime > s.currentTime
                then s.clockCalls + 1 else s.clockCalls))
              ((pop (s.taskQueue.set 0 {t with callback := none})).2)
              s.timerQueue).2,
           currentPriorityLevel := t.priorityLevel,
           currentTime := ctx.clock (if t.expirationTime > s.currentTime
             then s.clockCalls + 1 else s.clockCalls),
           clockCalls := (if t.expirationTime > s.currentTime
             then s.clockCalls + 1 else s.clockCalls) + 1}).1,
         (workLoopGo ctx paused fuel
          {taskQueue := (advanceTimers
              (ctx.clock (if t.expirationTime > s.currentTime
                then s.clockCalls + 1 else s.clockCalls))
              ((pop (s.taskQueue.set 0 {t with callback := none})).2)
              s.timerQueue).1,
           timerQueue := (advanceTimers
              (ctx.clock (if t.expirationTime > s.currentTime
                then s.clockCalls + 1 else s.clockCalls))
              ((pop (s.taskQueue.set 0 {t with callback := none})).2)
              s.timerQueue).2,
           currentPriorityLevel := t.priorityLevel,
           currentTime := ctx.clock (if t.expirationTime > s.currentTime
             then s.clockCalls + 1 else s.clockCalls),
           clockCalls := (if t.expirationTime > s.currentTime
             then s.clockCalls + 1 else s.clockCalls) + 1}).2.1,
         Event.invoke t.id (decide (t.expirationTime ≤ s.currentTime)) ::
           (workLoopGo ctx paused fuel
            {taskQueue := (advanceTimers
                (ctx.clock (if t.expirationTime > s.currentTime
                  then s.clockCalls + 1 else s.clockCalls))
                ((pop (s.taskQueue.set 0 {t with callback := none})).2)
                s.timerQueue).1,
             timerQueue := (advanceTimers
                (ctx.clock (if t.expirationTime > s.currentTime
                  then s.clockCalls + 1 else s.clockCalls))
                ((pop (s.taskQueue.set 0 {t with callback := none})).2)
                s.timerQueue).2,
             currentPriorityLevel := t.priorityLevel,
             currentTime := ctx.clock (if t.expirationTime > s.currentTime
               then s.clockCalls + 1 else s.clockCalls),
             clockCalls := (if t.expirationTime > s.currentTime
               then s.clockCalls + 1 else s.clockCalls) + 1}).2.2)) := by
  have hnil : s.taskQueue ≠ [] := by
    intro hempty
    rw [hempty] at hpk
    simp [peek] at hpk
  have hpaused : (enableSchedulerDebugging && paused) = false := by
    simp [enableSchedulerDebugging]
  have hdead : (if t.expirationTime > s.currentTime then
      (if !ctx.hasTimeRemaining then (true, s.clockCalls)
       else (shouldYieldToHost (ctx.clock s.clockCalls) ctx.startTime
          ctx.frameInterval ctx.needsPaint ctx.isInputPending,
          s.clockCalls + 1))
      else (false, s.clockCalls)) =
      (false, if t.expirationTime > s.currentTime
        then s.clockCalls + 1 else s.clockCalls) := by
    by_cases hexp : t.expirationTime > s.currentTime
    · rcases hnb with hle | ⟨htr, hsy⟩
      · omega
      · rw [if_pos hexp, if_pos hexp, htr, hsy]
        rfl
    · rw [if_neg hexp, if_neg hexp]
  have hclear : peek (s.taskQueue.set 0 {t with callback := none}) =
      some {t with callback := none} := peek_set_zero hnil _
  have hset : s.taskQueue.set 0 {t with callback := none} ≠ [] := by
    intro hempty
    rw [hempty] at hclear
    simp [peek] at hclear
  refine ⟨?_, ?_, ?_⟩
  · intro hthr
    simp only [workLoopGo, hpk, hpaused, hdead, hcb, hthr, Bool.false_eq_true,
      if_false]
  · intro c hcont
    refine ⟨peek_set_zero hset _, ?_⟩
    simp only [workLoopGo, hpk, hpaused, hdead, hcb, hcont, Bool.false_eq_true,
      if_false]
  · intro hnone
    refine ⟨hclear, ?_⟩
    simp only [workLoopGo, hpk, hpaused, hdead, hcb, hnone, hclear,
      Bool.false_eq_true, if_false, if_true]

/-- Claim C5 witness: dispatching an expired task whose callback returns a
non-function value nulls the slot and pops the task; instantiated at fuel 1
on a one-task queue. -/
theorem c5_dispatch_step_witness :
    peek (([(⟨1, some (Callback.mk (fun _ => CbResult.ret none)), 3, 0, 0, 0⟩ : Task)]).set 0
        ⟨1, none, 3, 0, 0, 0⟩) = some (⟨1, none, 3, 0, 0, 0⟩ : Task) ∧
    workLoopGo ⟨fun _ => 0, true, 0, 5, false, none⟩ false (0 + 1)
        ⟨[⟨1, some (Callback.mk (fun _ => CbResult.ret none)), 3, 0, 0, 0⟩], [], 3, 0, 0⟩ =
      ((workLoopGo ⟨fun _ => 0, true, 0, 5, false, none⟩ false 0
          ⟨(advanceTimers 0
              (pop (([(⟨1, some (Callback.mk (fun _ => CbResult.ret none)), 3, 0, 0, 0⟩ : Task)]).set 0
                ⟨1, none, 3, 0, 0, 0⟩)).2 []).1,
            (advanceTimers 0
              (pop (([(⟨1, some (Callback.mk (fun _ => CbResult.ret none)), 3, 0, 0, 0⟩ : Task)]).set 0
                ⟨1, none, 3, 0, 0, 0⟩)).2 []).2, 3, 0, 1⟩).1,
       (workLoopGo ⟨fun _ => 0, true, 0, 5, false, none⟩ false 0
          ⟨(advanceTimers 0
              (pop (([(⟨1, some (Callback.mk (fun _ => CbResult.ret none)), 3, 0, 0, 0⟩ : Task)]).set 0
                ⟨1, none, 3, 0, 0, 0⟩)).2 []).1,
            (advanceTimers 0
              (pop (([(⟨1, some (Callback.mk (fun _ => CbResult.ret none)), 3, 0, 0, 0⟩ : Task)]).set 0
                ⟨1, none, 3, 0, 0, 0⟩)).2 []).2, 3, 0, 1⟩).2.1,
       Event.invoke 1 true ::
         (workLoopGo ⟨fun _ => 0, true, 0, 5, false, none⟩ false 0
          ⟨(advanceTimers 0
              (pop (([(⟨1, some (Callback.mk (fun _ => CbResult.ret none)), 3, 0, 0, 0⟩ : Task)]).set 0
                ⟨1, none, 3, 0, 0, 0⟩)).2 []).1,
            (advanceTimers 0
              (pop (([(⟨1, some (Callback.mk (fun _ => CbResult.ret none)), 3, 0, 0, 0⟩ : Task)]).set 0
                ⟨1, none, 3, 0, 0, 0⟩)).2 []).2, 3, 0, 1⟩).2.2) :=
  (c5_dispatch_step ⟨fun _ => 0, true, 0, 5, false, none⟩ false 0
    ⟨[⟨1, some (Callback.mk (fun _ => CbResult.ret none)), 3, 0, 0, 0⟩], [], 3, 0, 0⟩
    ⟨1, some (Callback.mk (fun _ => CbResult.ret none)), 3, 0, 0, 0⟩
    (Callback.mk (fun _ => CbResult.ret none))
    rfl rfl (Or.inl (by decide))).2.2 rfl

/-- Characterization of `advanceTimers`: the timer queue splits into the
remaining timers, a promoted batch (uncancelled and matured, moved into the
task queue with `sortIndex` rewritten to `expirationTime`) and a dropped
batch of cancelled timers; afterwards the pending head, if any, is
uncancelled and unmatured. -/
theorem advanceTimers_spec (currentTime : Int) : ∀ (n : Nat) (timerQueue : List Task),
    timerQueue.length ≤ n → ∀ (taskQueue : List Task),
    ∃ promoted dropped : List Task,
      List.Perm timerQueue
        ((advanceTimers currentTime taskQueue timerQueue).2 ++ promoted ++ dropped) ∧
      List.Perm (advanceTimers currentTime taskQueue timerQueue).1
        (taskQueue ++ promoted.map (fun u => {u with sortIndex := u.expirationTime})) ∧
      (∀ u ∈ promoted, u.callback ≠ none ∧ u.startTime ≤ currentTime) ∧
      (∀ u ∈ dropped, u.callback = none) ∧
      (∀ u, peek (advanceTimers currentTime taskQueue timerQueue).2 = some u →
        u.callback ≠ none ∧ currentTime < u.startTime) := by
  intro n
  induction n with
  | zero =>
    intro timerQueue hlen taskQueue
    have hnil : timerQueue = [] := List.length_eq_zero.mp (by omega)
    subst hnil
    have hadv : advanceTimers currentTime taskQueue [] = (taskQueue, []) := by
      rw [advanceTimers]
      split
      · rfl
      · next timer hpk => simp [peek] at hpk
    refine ⟨[], [], ?_, ?_, by simp, by simp, ?_⟩
    · rw [hadv]; simp
    · rw [hadv]; simp
    · intro u hu
      rw [hadv] at hu
      simp [peek] at hu
  | succ n ih =>
    intro timerQueue hlen taskQueue
    rw [advanceTimers]
    split
    · -- peek timerQueue = none
      next hpk =>
      refine ⟨[], [], by simp, by simp, by simp, by simp, ?_⟩
      intro u hu
      rw [hpk] at hu
      simp at hu
    · next timer hpk =>
      have hnil : timerQueue ≠ [] := by
        intro hh; rw [hh] at hpk; simp [peek] at hpk
      have h0 : getT timerQueue 0 = timer := by
        rw [peek_eq_getT hnil] at hpk
        exact Option.some_inj.mp hpk
      have hlen2 : ((pop timerQueue).2).length ≤ n := by
        rw [pop_length]
        cases timerQueue
        · exact absurd rfl hnil
        · simp at hlen ⊢; omega
      have hpopperm : List.Perm timerQueue (timer :: (pop timerQueue).2) := by
        have := pop_perm timerQueue hnil
        rw [h0] at this
        exact this.symm
      split
      · -- cancelled timer: popped and dropped
        next hcb =>
        obtain ⟨promoted, dropped, hp1, hp2, hprom, hdrop, hpeek⟩ :=
          ih (pop timerQueue).2 hlen2 taskQueue
        refine ⟨promoted, timer :: dropped, ?_, hp2, hprom, ?_, hpeek⟩
        · refine hpopperm.trans ((hp1.cons timer).trans ?_)
          simp only [List.append_assoc, List.cons_append]
          refine (@List.perm_middle _ timer
            (advanceTimers currentTime taskQueue (pop timerQueue).2).2
            (promoted ++ dropped)).symm.trans ?_
          exact List.Perm.append_left _
            (@List.perm_middle _ timer promoted dropped).symm
        · intro u hu
          rcases List.mem_cons.mp hu with rfl | hu
          · exact hcb
          · exact hdrop u hu
      · next c hcb =>
        split
        · -- matured timer: promoted into the task queue
          next hst =>
          obtain ⟨promoted, dropped, hp1, hp2, hprom, hdrop, hpeek⟩ :=
            ih (pop timerQueue).2 hlen2
              (push taskQueue {timer with sortIndex := timer.expirationTime})
          refine ⟨timer :: promoted, dropped, ?_, ?_, ?_, hdrop, hpeek⟩
          · refine hpopperm.trans ((hp1.cons timer).trans ?_)
            simp only [List.append_assoc, List.cons_append]
            exact (@List.perm_middle _ timer
              ((advanceTimers currentTime
                (push taskQueue {timer with sortIndex := timer.expirationTime})
                (pop timerQueue).2).2)
              (promoted ++ dropped)).symm
          · refine hp2.trans ?_
            have hpp := push_perm taskQueue {timer with sortIndex := timer.expirationTime}
            refine (hpp.append_right _).trans ?_
            simp only [List.map_cons, List.cons_append]
            exact (@List.perm_middle _ _
              taskQueue
              (promoted.map fun u => {u with sortIndex := u.expirationTime})).symm
          · intro u hu
            rcases List.mem_cons.mp hu with rfl | hu
            · exact ⟨by rw [hcb]; simp, hst⟩
            · exact hprom u hu
        · -- unmatured timer: the loop stops
          next hst =>
          refine ⟨[], [], by simp, by simp, by simp, by simp, ?_⟩
          intro u hu
          rw [hpk] at hu
          have : u = timer := (Option.some_inj.mp hu).symm
          subst this
          exact ⟨by rw [hcb]; simp, by omega⟩

/-- Recognizer for host-timer requests in the event log. -/
def isTimeoutRequestEvent : Event → Bool
  | Event.timeoutRequest _ => true
  | _ => false

/-- Exit behaviour of the drain loop: outcome `more` (returned true) means
the ready queue is non-empty, outcome `done` (returned false) means it is
empty, and the log carries exactly one host-timer request — for
`pendingHead.startTime - currentTime` — precisely when the loop returned
false with a non-empty pending queue. -/
theorem workLoopGo_exit (ctx : LoopCtx) (paused : Bool) : ∀ (fuel : Nat) (s : LoopState),
    ((workLoopGo ctx paused fuel s).1 = Outcome.more →
      (workLoopGo ctx paused fuel s).2.1.taskQueue ≠ []) ∧
    ((workLoopGo ctx paused fuel s).1 = Outcome.done →
      (workLoopGo ctx paused fuel s).2.1.taskQueue = []) ∧
    ((workLoopGo ctx paused fuel s).2.2.filter isTimeoutRequestEvent =
      if (workLoopGo ctx paused fuel s).1 = Outcome.done then
        (match peek (workLoopGo ctx paused fuel s).2.1.timerQueue with
         | some firstTimer =>
           [Event.timeoutRequest (firstTimer.startTime -
             (workLoopGo ctx paused fuel s).2.1.currentTime)]
         | none => [])
      else []) := by
  intro fuel
  induction fuel with
  | zero =>
    intro s
    refine ⟨?_, ?_, ?_⟩
    · intro h
      exact absurd h (by simp [workLoopGo])
    · intro h
      exact absurd h (by simp [workLoopGo])
    · simp [workLoopGo]
  | succ n ih =>
    intro s
    simp only [workLoopGo]
    cases hpk : peek s.taskQueue with
    | none =>
      cases hpt : peek s.timerQueue with
      | some ft =>
        refine ⟨?_, ?_, ?_⟩
        · intro h
          exact absurd h (by simp)
        · intro h
          exact (peek_eq_none_iff s.taskQueue).mp hpk
        · simp [hpt, isTimeoutRequestEvent]
      | none =>
        refine ⟨?_, ?_, ?_⟩
        · intro h
          exact absurd h (by simp)
        · intro h
          exact (peek_eq_none_iff s.taskQueue).mp hpk
        · simp [hpt]
    | some t =>
      have hne : s.taskQueue ≠ [] := by
        intro hh
        rw [hh] at hpk
        simp [peek] at hpk
      simp only [enableSchedulerDebugging, Bool.false_and, Bool.false_eq_true,
        if_false]
      cases hD1 : (if t.expirationTime > s.currentTime then
          (if (!ctx.hasTimeRemaining) = true then (true, s.clockCalls)
           else (shouldYieldToHost (ctx.clock s.clockCalls) ctx.startTime
              ctx.frameInterval ctx.needsPaint ctx.isInputPending,
              s.clockCalls + 1))
          else (false, s.clockCalls)).1 with
      | true =>
        -- deadline hit: break with more work
        simp only [hD1, if_true]
        refine ⟨fun _ => hne, ?_, ?_⟩
        · intro h
          exact absurd h (by simp)
        · simp
      | false =>
        simp only [hD1, Bool.false_eq_true, if_false]
        split
        · -- head has a callback
          split
          · -- the callback threw
            refine ⟨?_, ?_, ?_⟩
            · intro h
              exact absurd h (by simp)
            · intro h
              exact absurd h (by simp)
            · simp [isTimeoutRequestEvent]
          · -- the callback returned
            refine ⟨(ih _).1, (ih _).2.1, ?_⟩
            simp only [List.filter_cons]
            have hinv : isTimeoutRequestEvent (Event.invoke t.id
              (decide (t.expirationTime ≤ s.currentTime))) = false := rfl
            rw [hinv]
            simp only [Bool.false_eq_true, if_false]
            exact (ih _).2.2
        · -- cancelled head: popped without dispatch
          exact ih _
/-- Claim C4: the work loop's timer-promotion procedure pops cancelled
pending-queue heads, promotes matured heads into the ready queue with
`sortIndex` rewritten to `expirationTime`, and stops at the first unmatured
pending task (so afterwards any pending head is uncancelled and unmatured);
on exit the work loop reports more work exactly for a non-empty ready queue
(`more` means non-empty, `done` means empty), and when it returns false with
a non-empty pending queue its event log carries exactly one host-timer
request, for `pendingHead.startTime - currentTime`. -/
theorem c4_advanceTimers_and_exit :
    (∀ (currentTime : Int) (taskQueue timerQueue : List Task),
      ∃ promoted dropped : List Task,
        List.Perm timerQueue
          ((advanceTimers currentTime taskQueue timerQueue).2 ++ promoted ++ dropped) ∧
        List.Perm (advanceTimers currentTime taskQueue timerQueue).1
          (taskQueue ++ promoted.map (fun u => {u with sortIndex := u.expirationTime})) ∧
        (∀ u ∈ promoted, u.callback ≠ none ∧ u.startTime ≤ currentTime) ∧
        (∀ u ∈ dropped, u.callback = none) ∧
        (∀ u, peek (advanceTimers currentTime taskQueue timerQueue).2 = some u →
          u.callback ≠ none ∧ currentTime < u.startTime)) ∧
    (∀ (ctx : LoopCtx) (paused : Bool) (fuel : Nat) (initialTime : Int)
        (taskQueue timerQueue : List Task) (cpl : Int),
      ((workLoop ctx paused fuel initialTime taskQueue timerQueue cpl).1 = Outcome.more →
        (workLoop ctx paused fuel initialTime taskQueue timerQueue cpl).2.1.taskQueue ≠ []) ∧
      ((workLoop ctx paused fuel initialTime taskQueue timerQueue cpl).1 = Outcome.done →
        (workLoop ctx paused fuel initialTime taskQueue timerQueue cpl).2.1.taskQueue = []) ∧
      ((workLoop ctx paused fuel initialTime taskQueue timerQueue cpl).2.2.filter
          isTimeoutRequestEvent =
        if (workLoop ctx paused fuel initialTime taskQueue timerQueue cpl).1
            = Outcome.done then
          (match peek (workLoop ctx paused fuel initialTime taskQueue
              timerQueue cpl).2.1.timerQueue with
           | some firstTimer =>
             [Event.timeoutRequest (firstTimer.startTime -
               (workLoop ctx paused fuel initialTime taskQueue
                 timerQueue cpl).2.1.currentTime)]
           | none => [])
        else [])) := by
  constructor
  · intro currentTime taskQueue timerQueue
    exact advanceTimers_spec currentTime timerQueue.length timerQueue le_rfl taskQueue
  · intro ctx paused fuel initialTime taskQueue timerQueue cpl
    exact workLoopGo_exit ctx paused fuel
      {taskQueue := (advanceTimers initialTime taskQueue timerQueue).1,
       timerQueue := (advanceTimers initialTime taskQueue timerQueue).2,
       currentPriorityLevel := cpl, currentTime := initialTime, clockCalls := 0}

/-- All queue entries carrying the given id are cancelled (callback null). -/
def NoLiveId (cid : Int) (l : List Task) : Prop :=
  ∀ u ∈ l, u.id = cid → u.callback = none

theorem noLiveId_of_sub {cid : Int} {l l' : List Task}
    (hsub : ∀ u ∈ l', u ∈ l) (h : NoLiveId cid l) : NoLiveId cid l' :=
  fun u hu => h u (hsub u hu)

theorem advanceTimers_noLiveId (cid currentTime : Int)
    (taskQueue timerQueue : List Task)
    (h1 : NoLiveId cid taskQueue) (h2 : NoLiveId cid timerQueue) :
    NoLiveId cid (advanceTimers currentTime taskQueue timerQueue).1 ∧
    NoLiveId cid (advanceTimers currentTime taskQueue timerQueue).2 := by
  obtain ⟨promoted, dropped, hp1, hp2, hprom, hdrop, hpeek⟩ :=
    advanceTimers_spec currentTime timerQueue.length timerQueue le_rfl taskQueue
  constructor
  · intro x hx hid
    have hx2 := hp2.mem_iff.mp hx
    rcases List.mem_append.mp hx2 with hc | hc
    · exact h1 x hc hid
    · obtain ⟨u, hu, rfl⟩ := List.mem_map.mp hc
      have humem : u ∈ timerQueue := by
        refine hp1.mem_iff.mpr ?_
        simp only [List.mem_append]
        exact Or.inl (Or.inr hu)
      have : u.callback = none := h2 u humem hid
      exact absurd this (hprom u hu).1
  · intro x hx hid
    have : x ∈ timerQueue := by
      refine hp1.mem_iff.mpr ?_
      simp only [List.mem_append]
      exact Or.inl (Or.inl hx)
    exact h2 x this hid

/-- No iteration of the drain loop invokes the callback of a task whose
queue entries are all cancelled: a cancelled entry reaching the head is
popped without invocation, and nothing revives the id. -/
theorem workLoopGo_no_cancelled_invoke (ctx : LoopCtx) (paused : Bool)
    (cid : Int) : ∀ (fuel : Nat) (s : LoopState),
    NoLiveId cid s.taskQueue → NoLiveId cid s.timerQueue →
    ∀ dt, Event.invoke cid dt ∉ (workLoopGo ctx paused fuel s).2.2 := by
  intro fuel
  induction fuel with
  | zero =>
    intro s h1 h2 dt
    simp [workLoopGo]
  | succ n ih =>
    intro s h1 h2 dt
    simp only [workLoopGo]
    cases hpk : peek s.taskQueue with
    | none =>
      cases hpt : peek s.timerQueue with
      | some ft => simp
      | none => simp
    | some t =>
      have htmem : t ∈ s.taskQueue := peek_mem hpk
      have hne : s.taskQueue ≠ [] := by
        intro hh
        rw [hh] at hpk
        simp [peek] at hpk
      simp only [enableSchedulerDebugging, Bool.false_and, Bool.false_eq_true,
        if_false]
      cases hD1 : (if t.expirationTime > s.currentTime then
          (if (!ctx.hasTimeRemaining) = true then (true, s.clockCalls)
           else (shouldYieldToHost (ctx.clock s.clockCalls) ctx.startTime
              ctx.frameInterval ctx.needsPaint ctx.isInputPending,
              s.clockCalls + 1))
          else (false, s.clockCalls)).1 with
      | true =>
        simp only [hD1, if_true]
        simp
      | false =>
        simp only [hD1, Bool.false_eq_true, if_false]
        split
        · -- head has a live callback, so its id is not the cancelled one
          next cb hcb =>
          have htid : t.id ≠ cid := by
            intro hh
            have := h1 t htmem hh
            rw [hcb] at this
            exact Option.noConfusion this
          have hclear : NoLiveId cid
              (s.taskQueue.set 0 {t with callback := none}) := by
            intro x hx hid
            rcases mem_of_mem_set hx with rfl | hx2
            · rfl
            · exact h1 x hx2 hid
          split
          · -- thrown: the single logged invocation carries the head's id
            simp only [List.mem_singleton]
            intro hh
            injection hh with hid hdt
            exact htid hid.symm
          · -- returned: the head's invocation is logged, then recurse
            next contOpt hrun =>
            simp only [List.mem_cons, not_or]
            constructor
            · intro hh
              injection hh with hid hdt
              exact htid hid.symm
            · have htq2 : NoLiveId cid
                  (match peek (s.taskQueue.set 0 {t with callback := none}) with
                   | some head => if head.id = t.id
                     then (pop (s.taskQueue.set 0 {t with callback := none})).2
                     else s.taskQueue.set 0 {t with callback := none}
                   | none => s.taskQueue.set 0 {t with callback := none}) := by
                split
                · split
                  · exact noLiveId_of_sub (fun u hu => mem_of_mem_pop hu) hclear
                  · exact hclear
                · exact hclear
              cases contOpt with
              | some continuation =>
                have hre : NoLiveId cid
                    ((s.taskQueue.set 0 {t with callback := none}).set 0
                      {t with callback := some continuation}) := by
                  intro x hx hid
                  rcases mem_of_mem_set hx with rfl | hx2
                  · exact absurd hid htid
                  · exact hclear x hx2 hid
                have hadv := advanceTimers_noLiveId cid (ctx.clock
                    ((if t.expirationTime > s.currentTime then
                      (if (!ctx.hasTimeRemaining) = true then (true, s.clockCalls)
                       else (shouldYieldToHost (ctx.clock s.clockCalls) ctx.startTime
                          ctx.frameInterval ctx.needsPaint ctx.isInputPending,
                          s.clockCalls + 1))
                      else (false, s.clockCalls)).2))
                  ((s.taskQueue.set 0 {t with callback := none}).set 0
                    {t with callback := some continuation})
                  s.timerQueue hre h2
                exact ih _ hadv.1 hadv.2 dt
              | none =>
                have hadv := advanceTimers_noLiveId cid (ctx.clock
                    ((if t.expirationTime > s.currentTime then
                      (if (!ctx.hasTimeRemaining) = true then (true, s.clockCalls)
                       else (shouldYieldToHost (ctx.clock s.clockCalls) ctx.startTime
                          ctx.frameInterval ctx.needsPaint ctx.isInputPending,
                          s.clockCalls + 1))
                      else (false, s.clockCalls)).2))
                  (match peek (s.taskQueue.set 0 {t with callback := none}) with
                   | some head => if head.id = t.id
                     then (pop (s.taskQueue.set 0 {t with callback := none})).2
                     else s.taskQueue.set 0 {t with callback := none}
                   | none => s.taskQueue.set 0 {t with callback := none})
                  s.timerQueue htq2 h2
                exact ih _ hadv.1 hadv.2 dt
        · -- cancelled head: popped without an invocation
          have hpop : NoLiveId cid (pop s.taskQueue).2 :=
            noLiveId_of_sub (fun u hu => mem_of_mem_pop hu) h1
          exact ih
            {s with taskQueue := (pop s.taskQueue).2,
                    clockCalls := (if t.expirationTime > s.currentTime then
                      (if (!ctx.hasTimeRemaining) = true then (true, s.clockCalls)
                       else (shouldYieldToHost (ctx.clock s.clockCalls) ctx.startTime
                          ctx.frameInterval ctx.needsPaint ctx.isInputPending,
                          s.clockCalls + 1))
                      else (false, s.clockCalls)).2}
            hpop h2 dt

/-- Claim C2: `unstable_cancelCallback` only nulls the task's callback slot
(no queue entry is removed and nothing else changes), and a task all of
whose queue entries are cancelled never has a callback invoked by the work
loop — whether the task sits in the pending queue, the ready queue, or at
the head of either; cancelled entries are removed lazily when they surface
at a queue head. -/
theorem c2_cancelled_never_invoked :
    (∀ (cid : Int) (s : SchedState),
      (unstable_cancelCallback cid s).taskQueue.length = s.taskQueue.length ∧
      (unstable_cancelCallback cid s).timerQueue.length = s.timerQueue.length ∧
      (∀ j, j < s.taskQueue.length →
        getT (unstable_cancelCallback cid s).taskQueue j =
          (if (getT s.taskQueue j).id = cid
           then {getT s.taskQueue j with callback := none}
           else getT s.taskQueue j)) ∧
      (∀ j, j < s.timerQueue.length →
        getT (unstable_cancelCallback cid s).timerQueue j =
          (if (getT s.timerQueue j).id = cid
           then {getT s.timerQueue j with callback := none}
           else getT s.timerQueue j))) ∧
    (∀ (ctx : LoopCtx) (paused : Bool) (cid : Int) (fuel : Nat) (s : LoopState),
      NoLiveId cid s.taskQueue → NoLiveId cid s.timerQueue →
      ∀ dt, Event.invoke cid dt ∉ (workLoopGo ctx paused fuel s).2.2) ∧
    (∀ (ctx : LoopCtx) (paused : Bool) (cid : Int) (fuel : Nat)
        (initialTime : Int) (taskQueue timerQueue : List Task) (cpl : Int),
      NoLiveId cid taskQueue → NoLiveId cid timerQueue →
      ∀ dt, Event.invoke cid dt ∉
        (workLoop ctx paused fuel initialTime taskQueue timerQueue cpl).2.2) := by
  refine ⟨?_, ?_, ?_⟩
  · intro cid s
    refine ⟨by simp [unstable_cancelCallback], by simp [unstable_cancelCallback],
      ?_, ?_⟩
    · intro j hj
      rw [getT_eq_getElem _ _ (by simp [unstable_cancelCallback]; omega),
        getT_eq_getElem _ _ hj]
      simp [unstable_cancelCallback, cancelTaskCallback]
    · intro j hj
      rw [getT_eq_getElem _ _ (by simp [unstable_cancelCallback]; omega),
        getT_eq_getElem _ _ hj]
      simp [unstable_cancelCallback, cancelTaskCallback]
  · intro ctx paused cid fuel s h1 h2 dt
    exact workLoopGo_no_cancelled_invoke ctx paused cid fuel s h1 h2 dt
  · intro ctx paused cid fuel initialTime taskQueue timerQueue cpl h1 h2 dt
    have hadv := advanceTimers_noLiveId cid initialTime taskQueue timerQueue h1 h2
    exact workLoopGo_no_cancelled_invoke ctx paused cid fuel
      {taskQueue := (advanceTimers initialTime taskQueue timerQueue).1,
       timerQueue := (advanceTimers initialTime taskQueue timerQueue).2,
       currentPriorityLevel := cpl, currentTime := initialTime, clockCalls := 0}
      hadv.1 hadv.2 dt

theorem advanceTimers_mem_fst {x : Task} (currentTime : Int)
    (taskQueue timerQueue : List Task) (hx : x ∈ taskQueue) :
    x ∈ (advanceTimers currentTime taskQueue timerQueue).1 := by
  obtain ⟨promoted, dropped, hp1, hp2, hprom, hdrop, hpeek⟩ :=
    advanceTimers_spec currentTime timerQueue.length timerQueue le_rfl taskQueue
  exact hp2.mem_iff.mpr (List.mem_append_left _ hx)

theorem advanceTimers_mem_fst_src {x : Task} (currentTime : Int)
    (taskQueue timerQueue : List Task)
    (hx : x ∈ (advanceTimers currentTime taskQueue timerQueue).1) :
    x ∈ taskQueue ∨ ∃ y ∈ timerQueue, x = {y with sortIndex := y.expirationTime} := by
  obtain ⟨promoted, dropped, hp1, hp2, hprom, hdrop, hpeek⟩ :=
    advanceTimers_spec currentTime timerQueue.length timerQueue le_rfl taskQueue
  rcases List.mem_append.mp (hp2.mem_iff.mp hx) with hc | hc
  · exact Or.inl hc
  · obtain ⟨y, hy, rfl⟩ := List.mem_map.mp hc
    refine Or.inr ⟨y, ?_, rfl⟩
    refine hp1.mem_iff.mpr ?_
    simp only [List.mem_append]
    exact Or.inl (Or.inr hy)

theorem advanceTimers_mem_snd {x : Task} (currentTime : Int)
    (taskQueue timerQueue : List Task)
    (hx : x ∈ (advanceTimers currentTime taskQueue timerQueue).2) :
    x ∈ timerQueue := by
  obtain ⟨promoted, dropped, hp1, hp2, hprom, hdrop, hpeek⟩ :=
    advanceTimers_spec currentTime timerQueue.length timerQueue le_rfl taskQueue
  refine hp1.mem_iff.mpr ?_
  simp only [List.mem_append]
  exact Or.inl (Or.inl hx)

theorem advanceTimers_isHeap_fst (currentTime : Int) : ∀ (n : Nat)
    (timerQueue : List Task), timerQueue.length ≤ n →
    ∀ (taskQueue : List Task), IsHeap taskQueue →
    IsHeap (advanceTimers currentTime taskQueue timerQueue).1 := by
  intro n
  induction n with
  | zero =>
    intro timerQueue hlen taskQueue hheap
    have hnil : timerQueue = [] := List.length_eq_zero.mp (by omega)
    subst hnil
    have hadv : advanceTimers currentTime taskQueue [] = (taskQueue, []) := by
      rw [advanceTimers]
      split
      · rfl
      · next timer hpk => simp [peek] at hpk
    rw [hadv]
    exact hheap
  | succ n ih =>
    intro timerQueue hlen taskQueue hheap
    rw [advanceTimers]
    split
    · next hpk => exact hheap
    · next timer hpk =>
      have hnil : timerQueue ≠ [] := by
        intro hh; rw [hh] at hpk; simp [peek] at hpk
      have hlen2 : ((pop timerQueue).2).length ≤ n := by
        rw [pop_length]
        cases timerQueue
        · exact absurd rfl hnil
        · simp at hlen ⊢; omega
      split
      · exact ih _ hlen2 _ hheap
      · next c hcb =>
        split
        · exact ih _ hlen2 _ (push_isHeap hheap _)
        · exact hheap

/-- The invariant carried through the drain loop for the ordering claim:
both tasks sit uncancelled in the ready heap, A strictly precedes B in the
`(sortIndex, id)` order, their ids identify them uniquely in the ready
queue, and neither id occurs in the pending queue. -/
structure OrderInv (A B : Task) (taskQueue timerQueue : List Task) : Prop where
  heapTask : IsHeap taskQueue
  memA : A ∈ taskQueue
  memB : B ∈ taskQueue
  cbA : A.callback ≠ none
  cbB : B.callback ≠ none
  keyAB : compare A B < 0
  uniqueA : ∀ u ∈ taskQueue, u.id = A.id → u = A
  uniqueB : ∀ u ∈ taskQueue, u.id = B.id → u = B
  timerA : ∀ u ∈ timerQueue, u.id ≠ A.id
  timerB : ∀ u ∈ timerQueue, u.id ≠ B.id

theorem orderInv_pop {A B : Task} {taskQueue timerQueue : List Task}
    (inv : OrderInv A B taskQueue timerQueue)
    (hrootA : getT taskQueue 0 ≠ A) (hrootB : getT taskQueue 0 ≠ B) :
    OrderInv A B (pop taskQueue).2 timerQueue := by
  have hsub : ∀ u ∈ (pop taskQueue).2, u ∈ taskQueue :=
    fun u hu => mem_of_mem_pop hu
  exact {
    heapTask := pop_isHeap inv.heapTask
    memA := mem_pop_of_mem inv.memA hrootA
    memB := mem_pop_of_mem inv.memB hrootB
    cbA := inv.cbA
    cbB := inv.cbB
    keyAB := inv.keyAB
    uniqueA := fun u hu => inv.uniqueA u (hsub u hu)
    uniqueB := fun u hu => inv.uniqueB u (hsub u hu)
    timerA := inv.timerA
    timerB := inv.timerB }

theorem orderInv_set_root {A B : Task} {taskQueue timerQueue : List Task}
    (inv : OrderInv A B taskQueue timerQueue) (hne : taskQueue ≠ [])
    (v : Task) (hvs : v.sortIndex = (getT taskQueue 0).sortIndex)
    (hvid : v.id = (getT taskQueue 0).id)
    (hrootA : getT taskQueue 0 ≠ A) (hrootB : getT taskQueue 0 ≠ B) :
    OrderInv A B (taskQueue.set 0 v) timerQueue := by
  have hlen : 0 < taskQueue.length := by
    cases taskQueue
    · exact absurd rfl hne
    · simp
  have hrootidA : (getT taskQueue 0).id ≠ A.id := by
    intro hh
    exact hrootA (inv.uniqueA _ (getT_mem _ 0 hlen) hh)
  have hrootidB : (getT taskQueue 0).id ≠ B.id := by
    intro hh
    exact hrootB (inv.uniqueB _ (getT_mem _ 0 hlen) hh)
  have hcases : ∀ u ∈ taskQueue.set 0 v, u = v ∨ u ∈ taskQueue :=
    fun u hu => mem_of_mem_set hu
  exact {
    heapTask := isHeap_set_sameKey inv.heapTask v hvs hvid
    memA := mem_set_of_mem inv.memA 0 v hrootA
    memB := mem_set_of_mem inv.memB 0 v hrootB
    cbA := inv.cbA
    cbB := inv.cbB
    keyAB := inv.keyAB
    uniqueA := by
      intro u hu hid
      rcases hcases u hu with rfl | hu2
      · rw [hvid] at hid
        exact absurd hid hrootidA
      · exact inv.uniqueA u hu2 hid
    uniqueB := by
      intro u hu hid
      rcases hcases u hu with rfl | hu2
      · rw [hvid] at hid
        exact absurd hid hrootidB
      · exact inv.uniqueB u hu2 hid
    timerA := inv.timerA
    timerB := inv.timerB }

theorem orderInv_advanceTimers {A B : Task} {taskQueue timerQueue : List Task}
    (inv : OrderInv A B taskQueue timerQueue) (currentTime : Int) :
    OrderInv A B (advanceTimers currentTime taskQueue timerQueue).1
      (advanceTimers currentTime taskQueue timerQueue).2 := by
  refine {
    heapTask := advanceTimers_isHeap_fst currentTime timerQueue.length timerQueue
      le_rfl taskQueue inv.heapTask
    memA := advanceTimers_mem_fst currentTime taskQueue timerQueue inv.memA
    memB := advanceTimers_mem_fst currentTime taskQueue timerQueue inv.memB
    cbA := inv.cbA
    cbB := inv.cbB
    keyAB := inv.keyAB
    uniqueA := ?_
    uniqueB := ?_
    timerA := fun u hu =>
      inv.timerA u (advanceTimers_mem_snd currentTime taskQueue timerQueue hu)
    timerB := fun u hu =>
      inv.timerB u (advanceTimers_mem_snd currentTime taskQueue timerQueue hu) }
  · intro u hu hid
    rcases advanceTimers_mem_fst_src currentTime taskQueue timerQueue hu with
      hc | ⟨y, hy, rfl⟩
    · exact inv.uniqueA u hc hid
    · exact absurd hid (inv.timerA y hy)
  · intro u hu hid
    rcases advanceTimers_mem_fst_src currentTime taskQueue timerQueue hu with
      hc | ⟨y, hy, rfl⟩
    · exact inv.uniqueB u hc hid
    · exact absurd hid (inv.timerB y hy)

/-- Among ready tasks the drain loop always dispatches in strictly
ascending `(sortIndex, id)` order: from any loop state in which A and B are
both ready and uncancelled with A strictly before B, the first logged
invocation of B is preceded by an invocation of A. -/
theorem workLoopGo_order (ctx : LoopCtx) (paused : Bool) (A B : Task) :
    ∀ (fuel : Nat) (s : LoopState),
    OrderInv A B s.taskQueue s.timerQueue →
    ∀ (l1 : List Event) (dt : Bool) (l2 : List Event),
      (workLoopGo ctx paused fuel s).2.2 = l1 ++ Event.invoke B.id dt :: l2 →
      (∀ dt', Event.invoke B.id dt' ∉ l1) →
      ∃ dt'', Event.invoke A.id dt'' ∈ l1 := by
  intro fuel
  induction fuel with
  | zero =>
    intro s inv l1 dt l2 hsplit hnot
    simp [workLoopGo] at hsplit
  | succ n ih =>
    intro s inv l1 dt l2 hsplit hnot
    have hABne : A ≠ B := ne_of_compare_neg inv.keyAB
    have hABid : A.id ≠ B.id := fun hh => hABne (inv.uniqueB A inv.memA hh)
    simp only [workLoopGo] at hsplit
    cases hpk : peek s.taskQueue with
    | none =>
      exfalso
      have hmem := inv.memA
      rw [(peek_eq_none_iff s.taskQueue).mp hpk] at hmem
      simp at hmem
    | some t =>
      simp only [hpk] at hsplit
      have hnil : s.taskQueue ≠ [] := by
        intro hh; rw [hh] at hpk; simp [peek] at hpk
      have hlen0 : 0 < s.taskQueue.length := by
        cases htq : s.taskQueue
        · exact absurd htq hnil
        · simp
      have ht0 : getT s.taskQueue 0 = t := by
        rw [peek_eq_getT hnil] at hpk
        exact Option.some_inj.mp hpk
      have hrootA_le : le t A := by
        have := isHeap_root_min inv.heapTask inv.memA
        rwa [ht0] at this
      have htB : t ≠ B := by
        intro hh
        subst hh
        exact not_le_of_compare_neg inv.keyAB hrootA_le
      have htBid : t.id ≠ B.id := fun hh => htB (inv.uniqueB t (peek_mem hpk) hh)
      simp only [enableSchedulerDebugging, Bool.false_and, Bool.false_eq_true,
        if_false] at hsplit
      cases hD1 : (if t.expirationTime > s.currentTime then
          (if (!ctx.hasTimeRemaining) = true then (true, s.clockCalls)
           else (shouldYieldToHost (ctx.clock s.clockCalls) ctx.startTime
              ctx.frameInterval ctx.needsPaint ctx.isInputPending,
              s.clockCalls + 1))
          else (false, s.clockCalls)).1 with
      | true =>
        rw [hD1] at hsplit
        simp at hsplit
      | false =>
        rw [hD1] at hsplit
        simp only [Bool.false_eq_true, if_false] at hsplit
        cases hcb : t.callback with
        | none =>
          simp only [hcb] at hsplit
          have htA : t ≠ A := fun hh => inv.cbA (by rw [← hh, hcb])
          have inv1 : OrderInv A B (pop s.taskQueue).2 s.timerQueue :=
            orderInv_pop inv (by rw [ht0]; exact htA) (by rw [ht0]; exact htB)
          exact ih _ inv1 l1 dt l2 hsplit hnot
        | some cb =>
          simp only [hcb] at hsplit
          by_cases htA : t = A
          · cases hrun : cb.run (decide (t.expirationTime ≤ s.currentTime)) with
            | thr =>
              simp only [hrun] at hsplit
              cases l1 with
              | nil =>
                simp only [List.nil_append, List.cons.injEq,
                  Event.invoke.injEq] at hsplit
                exact absurd hsplit.1.1 htBid
              | cons e l1' =>
                simp only [List.cons_append, List.cons.injEq] at hsplit
                exact absurd hsplit.2 (by simp)
            | ret contOpt =>
              simp only [hrun] at hsplit
              cases l1 with
              | nil =>
                simp only [List.nil_append, List.cons.injEq,
                  Event.invoke.injEq] at hsplit
                exact absurd hsplit.1.1 htBid
              | cons e l1' =>
                simp only [List.cons_append, List.cons.injEq] at hsplit
                refine ⟨decide (t.expirationTime ≤ s.currentTime), ?_⟩
                rw [← hsplit.1, htA]
                exact List.mem_cons_self _ _
          · have htAid : t.id ≠ A.id :=
              fun hh => htA (inv.uniqueA t (peek_mem hpk) hh)
            have hrootA : getT s.taskQueue 0 ≠ A := by rw [ht0]; exact htA
            have hrootB : getT s.taskQueue 0 ≠ B := by rw [ht0]; exact htB
            cases hrun : cb.run (decide (t.expirationTime ≤ s.currentTime)) with
            | thr =>
              simp only [hrun] at hsplit
              cases l1 with
              | nil =>
                simp only [List.nil_append, List.cons.injEq,
                  Event.invoke.injEq] at hsplit
                exact absurd hsplit.1.1 htBid
              | cons e l1' =>
                simp only [List.cons_append, List.cons.injEq] at hsplit
                exact absurd hsplit.2 (by simp)
            | ret contOpt =>
              simp only [hrun] at hsplit
              cases l1 with
              | nil =>
                simp only [List.nil_append, List.cons.injEq,
                  Event.invoke.injEq] at hsplit
                exact absurd hsplit.1.1 htBid
              | cons e l1' =>
                simp only [List.cons_append, List.cons.injEq] at hsplit
                obtain ⟨he, hrest⟩ := hsplit
                have hnot' : ∀ dt', Event.invoke B.id dt' ∉ l1' :=
                  fun dt' hmem => hnot dt' (List.mem_cons_of_mem _ hmem)
                have inv1 : OrderInv A B
                    (s.taskQueue.set 0 {t with callback := none}) s.timerQueue :=
                  orderInv_set_root inv hnil _ (by rw [ht0]) (by rw [ht0])
                    hrootA hrootB
                have hnil1 : s.taskQueue.set 0 {t with callback := none} ≠ [] := by
                  intro hh
                  have h2 := congrArg List.length hh
                  simp only [List.length_set, List.length_nil] at h2
                  omega
                have hroot1 : getT (s.taskQueue.set 0 {t with callback := none}) 0
                    = {t with callback := none} := getT_set_self _ _ _ hlen0
                have hrootA1 : getT (s.taskQueue.set 0
                    {t with callback := none}) 0 ≠ A := by
                  rw [hroot1]
                  exact fun hh => inv.cbA (by rw [← hh])
                have hrootB1 : getT (s.taskQueue.set 0
                    {t with callback := none}) 0 ≠ B := by
                  rw [hroot1]
                  exact fun hh => inv.cbB (by rw [← hh])
                cases contOpt with
                | some c =>
                  have inv2 : OrderInv A B
                      ((s.taskQueue.set 0 {t with callback := none}).set 0
                        {t with callback := some c}) s.timerQueue :=
                    orderInv_set_root inv1 hnil1 _ (by rw [hroot1]) (by rw [hroot1])
                      hrootA1 hrootB1
                  have inv3 := orderInv_advanceTimers inv2 (ctx.clock
                    ((if t.expirationTime > s.currentTime then
                      (if (!ctx.hasTimeRemaining) = true then (true, s.clockCalls)
                       else (shouldYieldToHost (ctx.clock s.clockCalls) ctx.startTime
                          ctx.frameInterval ctx.needsPaint ctx.isInputPending,
                          s.clockCalls + 1))
                      else (false, s.clockCalls)).2))
                  obtain ⟨dt'', hmem⟩ := ih _ inv3 l1' dt l2 hrest hnot'
                  exact ⟨dt'', List.mem_cons_of_mem _ hmem⟩
                | none =>
                  have hpk1 : peek (s.taskQueue.set 0 {t with callback := none})
                      = some {t with callback := none} := peek_set_zero hnil _
                  simp only [hpk1, eq_self_iff_true, if_true] at hrest
                  have inv2 : OrderInv A B
                      ((pop (s.taskQueue.set 0 {t with callback := none})).2)
                      s.timerQueue :=
                    orderInv_pop inv1 hrootA1 hrootB1
                  have inv3 := orderInv_advanceTimers inv2 (ctx.clock
                    ((if t.expirationTime > s.currentTime then
                      (if (!ctx.hasTimeRemaining) = true then (true, s.clockCalls)
                       else (shouldYieldToHost (ctx.clock s.clockCalls) ctx.startTime
                          ctx.frameInterval ctx.needsPaint ctx.isInputPending,
                          s.clockCalls + 1))
                      else (false, s.clockCalls)).2))
                  obtain ⟨dt'', hmem⟩ := ih _ inv3 l1' dt l2 hrest hnot'
                  exact ⟨dt'', List.mem_cons_of_mem _ hmem⟩

/-- Claim C1: for any two tasks A and B that are both in the ready queue and
uncancelled, with `(A.sortIndex, A.id)` lexicographically smaller than
`(B.sortIndex, B.id)`, the work loop invokes A's callback before B's: in the
event log of any `workLoopGo` run (and of any `workLoop` run) the first
invocation of B is preceded by an invocation of A.  The id-uniqueness and
timer-queue-disjointness hypotheses reflect that `taskIdCounter` hands every
task a distinct id. -/
theorem c1_dispatch_order (ctx : LoopCtx) (paused : Bool) (A B : Task)
    (taskQueue timerQueue : List Task)
    (hheap : IsHeap taskQueue)
    (hA : A ∈ taskQueue) (hB : B ∈ taskQueue)
    (hcbA : A.callback ≠ none) (hcbB : B.callback ≠ none)
    (hlex : A.sortIndex < B.sortIndex ∨
      (A.sortIndex = B.sortIndex ∧ A.id < B.id))
    (huA : ∀ u ∈ taskQueue, u.id = A.id → u = A)
    (huB : ∀ u ∈ taskQueue, u.id = B.id → u = B)
    (htA : ∀ u ∈ timerQueue, u.id ≠ A.id)
    (htB : ∀ u ∈ timerQueue, u.id ≠ B.id) :
    (∀ (fuel : Nat) (prio now : Int) (calls : Nat)
        (l1 : List Event) (dt : Bool) (l2 : List Event),
      (workLoopGo ctx paused fuel
          ⟨taskQueue, timerQueue, prio, now, calls⟩).2.2
          = l1 ++ Event.invoke B.id dt :: l2 →
      (∀ dt', Event.invoke B.id dt' ∉ l1) →
      ∃ dt'', Event.invoke A.id dt'' ∈ l1) ∧
    (∀ (fuel : Nat) (initialTime prio : Int)
        (l1 : List Event) (dt : Bool) (l2 : List Event),
      (workLoop ctx paused fuel initialTime taskQueue timerQueue prio).2.2
          = l1 ++ Event.invoke B.id dt :: l2 →
      (∀ dt', Event.invoke B.id dt' ∉ l1) →
      ∃ dt'', Event.invoke A.id dt'' ∈ l1) := by
  have hkey : compare A B < 0 := (compare_neg_iff A B).mpr hlex
  have hinv : OrderInv A B taskQueue timerQueue :=
    ⟨hheap, hA, hB, hcbA, hcbB, hkey, huA, huB, htA, htB⟩
  constructor
  · intro fuel prio now calls l1 dt l2 hsplit hnot
    exact workLoopGo_order ctx paused A B fuel _ hinv l1 dt l2 hsplit hnot
  · intro fuel initialTime prio l1 dt l2 hsplit hnot
    simp only [workLoop] at hsplit
    exact workLoopGo_order ctx paused A B fuel _
      (orderInv_advanceTimers hinv initialTime) l1 dt l2 hsplit hnot

/-- A concrete two-task run: with tasks 1 (sort index 5) and 2 (sort index 7)
both expired, the log invokes task 1 strictly before task 2. -/
theorem c1_dispatch_order_witness :
    IsHeap [(⟨1, some (Callback.mk (fun _ => CbResult.ret none)), 3, 0, 5, 5⟩ :
        Task),
      ⟨2, some (Callback.mk (fun _ => CbResult.ret none)), 3, 0, 7, 7⟩] ∧
    (∃ dt'', Event.invoke (1 : Int) dt'' ∈ [Event.invoke (1 : Int) true]) := by
  constructor
  · decide
  · refine (c1_dispatch_order ⟨fun _ => 100, true, 0, 5, false, none⟩ false
        ⟨1, some (Callback.mk (fun _ => CbResult.ret none)), 3, 0, 5, 5⟩
        ⟨2, some (Callback.mk (fun _ => CbResult.ret none)), 3, 0, 7, 7⟩
        [⟨1, some (Callback.mk (fun _ => CbResult.ret none)), 3, 0, 5, 5⟩,
          ⟨2, some (Callback.mk (fun _ => CbResult.ret none)), 3, 0, 7, 7⟩] []
        (by decide) (List.Mem.head _) (List.Mem.tail _ (List.Mem.head _))
        (by simp) (by simp) (Or.inl (by decide)) ?_ ?_
        (fun u hu => absurd hu (List.not_mem_nil u))
        (fun u hu => absurd hu (List.not_mem_nil u))).1
      3 3 100 0 [Event.invoke 1 true] true [] ?_ (by decide)
    · intro u hu hid
      rcases List.mem_cons.mp hu with h | h
      · exact h
      · rcases List.mem_cons.mp h with h2 | h2
        · rw [h2] at hid
          exact absurd hid (by decide)
        · simp at h2
    · intro u hu hid
      rcases List.mem_cons.mp hu with h | h
      · rw [h] at hid
        exact absurd hid (by decide)
      · rcases List.mem_cons.mp h with h2 | h2
        · exact h2
        · simp at h2
    · simp [workLoopGo, peek, pop, advanceTimers, siftDown, getT, List.getD,
        Callback.run]

end SchedulerClaims
